import Mathlib

/-!
Verification development for the `plant5` graph-rewriting engine.

The Rust sources under `src/rgg/` are shallowly embedded here:
pure data structures become Lean structures, `BTreeMap`/`BTreeSet`/`HashMap`
become association lists (sorted where the source relies on ordered
iteration), `usize`/`i32` become `Nat`/`Int` (with explicit wrapping where a
cast matters), and fallible or panicking code returns values of the `Out`
monad below.  External crates (`gamma`'s `DefaultGraph`, `meval`+`rand`
inside `ToNode::eval`) are modelled at their documented interface;
`ToNode::eval` is kept as an explicit function parameter `evalFn` since its
output is random.
-/

namespace Plant

/-- Outcome of running embedded code: a normal result, a Rust panic /
propagated `Err` that `next()` turns into a panic, or exhaustion of the
fuel that bounds the unbounded `loop` of the source.  `fuelOut` is an
artifact of the embedding, never of the program. -/
inductive Out (α : Type) where
  | ok : α → Out α
  | crash : Out α
  | fuelOut : Out α
deriving DecidableEq, Repr

namespace Out

def isOk {α : Type} [DecidableEq α] : Out α → Bool
  | .ok _ => true
  | _ => false

def isCrash {α : Type} : Out α → Bool
  | .crash => true
  | _ => false

def getD {α : Type} (o : Out α) (d : α) : α :=
  match o with
  | .ok a => a
  | _ => d

end Out

/-- Association-list lookup, the embedding of `BTreeMap::get` / `HashMap::get`. -/
def alookup {κ α : Type} [DecidableEq κ] : List (κ × α) → κ → Option α
  | [], _ => none
  | (k', v) :: t, k => if k' = k then some v else alookup t k

/-- Association-list insert-or-replace, the embedding of `insert`. -/
def ainsert {κ α : Type} [DecidableEq κ] : List (κ × α) → κ → α → List (κ × α)
  | [], k, v => [(k, v)]
  | (k', v') :: t, k, v => if k' = k then (k, v) :: t else (k', v') :: ainsert t k v

/-- Association-list removal, the embedding of `remove`. -/
def aremove {κ α : Type} [DecidableEq κ] : List (κ × α) → κ → List (κ × α)
  | [], _ => []
  | (k', v') :: t, k => if k' = k then t else (k', v') :: aremove t k

/-- Association-list key membership, the embedding of `contains_key`. -/
def acontains {κ α : Type} [DecidableEq κ] (l : List (κ × α)) (k : κ) : Bool :=
  (alookup l k).isSome

/-- Sorted-set insertion, the embedding of `BTreeSet<usize>::insert`. -/
def sinsert : List Nat → Nat → List Nat
  | [], k => [k]
  | a :: t, k => if k < a then k :: a :: t else if k = a then a :: t else a :: sinsert t k

/-- Set removal, the embedding of `BTreeSet<usize>::remove`. -/
def serase : List Nat → Nat → List Nat
  | [], _ => []
  | a :: t, k => if a = k then t else a :: serase t k

/-- Lexicographic order on edge pairs (the `Ord` of `(usize, usize)`). -/
def pairLt (a b : Nat × Nat) : Bool :=
  a.1 < b.1 || (a.1 = b.1 && a.2 < b.2)

/-- Sorted-set insertion for edges, `BTreeSet<(usize, usize)>::insert`. -/
def einsert : List (Nat × Nat) → (Nat × Nat) → List (Nat × Nat)
  | [], e => [e]
  | a :: t, e => if pairLt e a then e :: a :: t else if e = a then a :: t else a :: einsert t e

/-- Set removal for edges, `BTreeSet<(usize, usize)>::remove`; returns the
set together with whether the element was present (the `bool` Rust reports). -/
def eremove : List (Nat × Nat) → (Nat × Nat) → List (Nat × Nat) × Bool
  | [], _ => ([], false)
  | a :: t, e =>
    if a = e then (t, true)
    else
      let r := eremove t e
      (a :: r.1, r.2)

/-- Semantics of Rust's `as usize` cast applied to an `i32` value (sign
extension to 64 bits reinterpreted as unsigned). -/
def usizeOfI32 (i : Int) : Nat :=
  (i % (2 : Int) ^ 64).toNat

/-- The two value tags of `value.rs`. -/
inductive RGGType where
  | int
  | float
deriving DecidableEq, Repr

/-- Embedding of `Value`: `raw_value` holds the stored `i32` bit pattern
(as a signed integer) and `rgg_type` the tag, exactly as in `value.rs`. -/
structure Value where
  raw_value : Int
  rgg_type : RGGType
deriving DecidableEq, Repr

/-- `Value::new_int` stores the integer directly in `raw_value`. -/
def Value.new_int (i : Int) : Value :=
  ⟨i, .int⟩

/-- Two's-complement bit pattern of an `i32` as a natural number below `2^32`. -/
def bitsOfI32 (i : Int) : Nat :=
  (i % (2 : Int) ^ 32).toNat

/-- IEEE-754 binary32 decoding of a 32-bit pattern into an exact rational.
This is the meaning of Rust's reinterpretation of `raw_value` as an `f32`
in `Value::get::<f32>` for finite bit patterns; for `exp = 255` (infinities
and NaNs) the embedding returns 0 and no claim relies on it. -/
def decodeF32 (b : Nat) : ℚ :=
  let sign : ℚ := if b / 2 ^ 31 % 2 = 1 then -1 else 1
  let exp : Nat := b / 2 ^ 23 % 2 ^ 8
  let frac : Nat := b % 2 ^ 23
  if exp = 0 then sign * frac / 2 ^ 149
  else if exp = 255 then 0
  else sign * ((2 ^ 23 + frac : Nat) : ℚ) * 2 ^ exp / 2 ^ 150

/-- `Value::get::<i32>`: reinterprets the raw bits as an `i32`, i.e. returns
them unchanged. -/
def Value.getI32 (v : Value) : Int :=
  v.raw_value

/-- `Value::get::<f32>`: reinterprets the raw bits as an `f32`. -/
def Value.getF32 (v : Value) : ℚ :=
  decodeF32 (bitsOfI32 v.raw_value)

/-- Embedding of `condition.rs`'s `Condition`.  Note the source comment on
`Range` claims an exclusive upper bound. -/
inductive Condition where
  | equals : Value → Condition
  | less_than : Value → Condition
  | greater_than : Value → Condition
  | less_than_or_equals : Value → Condition
  | greater_than_or_equals : Value → Condition
  | range : Value → Value → Condition
deriving DecidableEq, Repr

/-- `Condition::check::<i32>`, the integer instantiation of the generic
`check` of `condition.rs` (each arm compares against `condition.get::<T>()`). -/
def Condition.checkI32 : Condition → Int → Bool
  | .equals c, v => v = c.getI32
  | .less_than c, v => v < c.getI32
  | .greater_than c, v => v > c.getI32
  | .less_than_or_equals c, v => v ≤ c.getI32
  | .greater_than_or_equals c, v => v ≥ c.getI32
  | .range l r, v => l.getI32 ≤ v && v ≤ r.getI32

/-- `Condition::check::<f32>`, the float instantiation: the argument is the
exact rational value of the `f32` being checked and each bound is read back
through the bit reinterpretation `get::<f32>`.  Comparison of finite `f32`
values coincides with comparison of their exact rationals. -/
def Condition.checkF32 : Condition → ℚ → Bool
  | .equals c, v => v = c.getF32
  | .less_than c, v => v < c.getF32
  | .greater_than c, v => v > c.getF32
  | .less_than_or_equals c, v => v ≤ c.getF32
  | .greater_than_or_equals c, v => v ≥ c.getF32
  | .range l r, v => l.getF32 ≤ v && v ≤ r.getF32

/-- Embedding of `node.rs`'s `Node`: a name and a value map. -/
structure Node where
  name : String
  values : List (String × Value)
deriving DecidableEq, Repr

/-- `Node::new`. -/
def Node.new (name : String) : Node :=
  ⟨name, []⟩

/-- Embedding of `node.rs`'s `FromNode`: a pattern node. -/
structure FromNode where
  id : Int
  name : Option String
  values : List (String × Condition)
deriving DecidableEq, Repr

/-- `FromNode::match_node` from `node.rs`: only the optional name is
consulted; the `values` conditions are behind a `TODO` and never checked. -/
def FromNode.match_node (f : FromNode) (node : Node) : Bool :=
  match f.name with
  | some name => if name ≠ node.name then false else true
  | none => true

/-- Embedding of `node.rs`'s `ToNode`: a template with raw expression
strings; its `eval` (via the external `meval` and `rand` crates) is a
parameter `evalFn` wherever procedures are embedded. -/
structure ToNode where
  name : String
  values : List (String × String)
deriving DecidableEq, Repr

/-- Canonicalization of an undirected edge, `dirty_graph.rs`'s `new_edge`. -/
def new_edge (node1 node2 : Nat) : Nat × Nat :=
  if node1 ≤ node2 then (node1, node2) else (node2, node1)

/-- Embedding of `dirty_graph.rs`'s `DirtyGraph`.  `nodes` and `edges` are
the sorted sets behind the source's `BTreeSet`s; `adjacency` keeps each
`Vec` in push order. -/
structure DirtyGraph where
  nodes : List Nat
  edges : List (Nat × Nat)
  adjacency : List (Nat × List Nat)
  ancestors : List (Nat × Nat)
  children : List (Nat × List Nat)
  node_generation : List (Nat × Nat)
  edge_generation : List ((Nat × Nat) × Nat)
  next_node : Nat
  next_generation : Nat
deriving DecidableEq, Repr

namespace DirtyGraph

/-- `DirtyGraph::default()`. -/
def default : DirtyGraph :=
  ⟨[], [], [], [], [], [], [], 0, 1⟩

/-- `add_to_adjacency`: `entry(lhs).or_insert(vec![]).push(rhs)`. -/
def add_to_adjacency (g : DirtyGraph) (lhs rhs : Nat) : DirtyGraph :=
  match alookup g.adjacency lhs with
  | some v => { g with adjacency := ainsert g.adjacency lhs (v ++ [rhs]) }
  | none => { g with adjacency := ainsert g.adjacency lhs [rhs] }

/-- `contains_edge`, the infallible helper behind `has_edge`. -/
def contains_edge (g : DirtyGraph) (sid tid : Nat) : Bool :=
  new_edge sid tid ∈ g.edges

/-- `add_ancestor`. -/
def add_ancestor (g : DirtyGraph) (me ancestor : Nat) : DirtyGraph :=
  let g := { g with ancestors := ainsert g.ancestors me ancestor }
  let cs := (alookup g.children ancestor).getD []
  { g with children := ainsert g.children ancestor (sinsert cs me) }

/-- `remove_ancestor`. -/
def remove_ancestor (g : DirtyGraph) (me : Nat) : DirtyGraph :=
  { g with ancestors := aremove g.ancestors me }

/-- `get_ancestor`. -/
def get_ancestor (g : DirtyGraph) (id : Nat) : Option Nat :=
  alookup g.ancestors id

/-- `get_children` (a `BTreeSet` iterated in ascending order). -/
def get_children (g : DirtyGraph) (id : Nat) : List Nat :=
  (alookup g.children id).getD []

/-- `remove_children`: reparent all children of `id` to `remap`, else to
`id`'s own ancestor, else orphan them; then drop `id`'s children entry. -/
def remove_children (g : DirtyGraph) (id : Nat) (remap : Option Nat) : DirtyGraph :=
  let ancestor := match remap with
    | some r => some r
    | none => g.get_ancestor id
  let g := (g.get_children id).foldl
    (fun g child =>
      match ancestor with
      | some a => g.add_ancestor child a
      | none => g.remove_ancestor child) g
  { g with children := aremove g.children id }

/-- `advance_generation`: increment, resetting all stamps at 255. -/
def advance_generation (g : DirtyGraph) : DirtyGraph :=
  let g := { g with next_generation := g.next_generation + 1 }
  if g.next_generation = 255 then
    { g with
      node_generation := g.node_generation.map (fun p => (p.1, 0)),
      edge_generation := g.edge_generation.map (fun p => (p.1, 0)),
      next_generation := 1 }
  else g

/-- `set_node_dirty`; returns whether the node had a generation entry. -/
def set_node_dirty (g : DirtyGraph) (node : Nat) : DirtyGraph × Bool :=
  match alookup g.node_generation node with
  | some _ => ({ g with node_generation := ainsert g.node_generation node g.next_generation }, true)
  | none => (g, false)

/-- `node_is_dirty`. -/
def node_is_dirty (g : DirtyGraph) (node : Nat) : Bool :=
  if node ∉ g.nodes then false
  else
    match alookup g.node_generation node with
    | some gen => g.next_generation ≤ gen
    | none => false

/-- `Graph::order` for `DirtyGraph`. -/
def order (g : DirtyGraph) : Nat :=
  g.nodes.length

/-- `Graph::size` for `DirtyGraph`. -/
def size (g : DirtyGraph) : Nat :=
  g.edges.length

/-- `Graph::neighbors`: fails with `MissingNode` when `id` has no adjacency
entry, otherwise returns the adjacency `Vec` in order. -/
def neighbors (g : DirtyGraph) (id : Nat) : Out (List Nat) :=
  match alookup g.adjacency id with
  | none => .crash
  | some v => .ok v

/-- `Graph::has_node`. -/
def has_node (g : DirtyGraph) (id : Nat) : Bool :=
  id ∈ g.nodes

/-- `Graph::degree`. -/
def degree (g : DirtyGraph) (id : Nat) : Out Nat :=
  match alookup g.adjacency id with
  | none => .crash
  | some v => .ok v.length

/-- `Graph::has_edge` for `DirtyGraph` (never fails). -/
def has_edge (g : DirtyGraph) (sid tid : Nat) : Bool :=
  g.contains_edge sid tid

/-- `AppendableGraph::add_node_with`: fails with `DuplicateNode`, otherwise
inserts the node, stamps it, and resets its adjacency entry to `vec![]`. -/
def add_node_with (g : DirtyGraph) (id : Nat) : Out DirtyGraph :=
  if id ∈ g.nodes then .crash
  else .ok { g with
    nodes := sinsert g.nodes id,
    node_generation := ainsert g.node_generation id g.next_generation,
    adjacency := ainsert g.adjacency id [] }

/-- `AppendableGraph::add_node`: allocates `next_node`. -/
def add_node (g : DirtyGraph) : Out (DirtyGraph × Nat) :=
  match g.add_node_with g.next_node with
  | .crash => .crash
  | .fuelOut => .fuelOut
  | .ok g' => .ok ({ g' with next_node := g'.next_node + 1 }, g.next_node)

/-- `AppendableGraph::add_edge`: inserts the canonical pair, stamps the raw
pair, and pushes both adjacency directions.  No existence check on the
endpoints. -/
def add_edge (g : DirtyGraph) (sid tid : Nat) : DirtyGraph :=
  let g := { g with
    edges := einsert g.edges (new_edge sid tid),
    edge_generation := ainsert g.edge_generation (sid, tid) g.next_generation }
  let g := g.add_to_adjacency sid tid
  g.add_to_adjacency tid sid

/-- `RemovableGraph::remove_edges_with`: removes every edge (and stamp)
touching `id`; adjacency is left untouched.  Returns the count removed. -/
def remove_edges_with (g : DirtyGraph) (id : Nat) : DirtyGraph × Nat :=
  let to_remove := g.edges.filter (fun e => e.1 = id || e.2 = id)
  let g := { g with
    edge_generation := to_remove.foldl (fun m e => aremove m e) g.edge_generation,
    edges := g.edges.filter (fun e => ¬(e.1 = id || e.2 = id)) }
  (g, to_remove.length)

/-- `RemovableGraph::remove_node`: removes incident edges, the generation
stamp and the node itself (but not the adjacency entry); returns 1 when the
node existed. -/
def remove_node (g : DirtyGraph) (id : Nat) : DirtyGraph × Nat :=
  let g := (g.remove_edges_with id).1
  let g := { g with node_generation := aremove g.node_generation id }
  let present := id ∈ g.nodes
  ({ g with nodes := serase g.nodes id }, if present then 1 else 0)

/-- `RemovableGraph::remove_edge`. -/
def remove_edge (g : DirtyGraph) (sid tid : Nat) : DirtyGraph × Nat :=
  let r := eremove g.edges (new_edge sid tid)
  ({ g with edges := r.1 }, if r.2 then 1 else 0)

end DirtyGraph

/-- Embedding of `rgg_graph.rs`'s `RggGraph`: a `DirtyGraph` plus the
node-id → `Node` attribute map. -/
structure RggGraph where
  graph : DirtyGraph
  values : List (Nat × Node)
deriving DecidableEq, Repr

namespace RggGraph

/-- `RggGraph::new()` (the derived `Default`). -/
def new : RggGraph :=
  ⟨DirtyGraph.default, []⟩

/-- `RggGraph::insert_node`: `add_node().unwrap()` plus a fresh empty `Node`. -/
def insert_node (g : RggGraph) : Out (RggGraph × Nat) :=
  match g.graph.add_node with
  | .crash => .crash
  | .fuelOut => .fuelOut
  | .ok (dg, n) => .ok (⟨dg, ainsert g.values n (Node.new "")⟩, n)

/-- `RggGraph::insert_node_with`. -/
def insert_node_with (g : RggGraph) (node : Node) : Out (RggGraph × Nat) :=
  match g.graph.add_node with
  | .crash => .crash
  | .fuelOut => .fuelOut
  | .ok (dg, n) => .ok (⟨dg, ainsert g.values n node⟩, n)

/-- `RggGraph::remove_node`: removes the graph node and its attributes. -/
def remove_node (g : RggGraph) (id : Nat) : RggGraph :=
  ⟨(g.graph.remove_node id).1, aremove g.values id⟩

/-- `RggGraph::order`. -/
def order (g : RggGraph) : Nat :=
  g.graph.order

/-- `RggGraph::neighbors`. -/
def neighbors (g : RggGraph) (id : Nat) : Out (List Nat) :=
  g.graph.neighbors id

end RggGraph

/-- Model of the external `gamma` crate's `DefaultGraph` at its documented
interface: an undirected graph keyed by explicit node ids, whose fallible
operations error on missing or duplicate nodes/edges. -/
structure DefaultGraph where
  adjacency : List (Nat × List Nat)
deriving DecidableEq, Repr

namespace DefaultGraph

/-- `DefaultGraph::new()`. -/
def new : DefaultGraph :=
  ⟨[]⟩

/-- `DefaultGraph::add_node_with`: errors on a duplicate id. -/
def add_node_with (g : DefaultGraph) (id : Nat) : Out DefaultGraph :=
  if acontains g.adjacency id then .crash
  else .ok ⟨ainsert g.adjacency id []⟩

/-- `DefaultGraph::add_edge`: errors when either endpoint is missing or the
edge already exists; otherwise records both directions. -/
def add_edge (g : DefaultGraph) (sid tid : Nat) : Out DefaultGraph :=
  match alookup g.adjacency sid, alookup g.adjacency tid with
  | some ns, some nt =>
    if tid ∈ ns then .crash
    else .ok ⟨ainsert (ainsert g.adjacency sid (ns ++ [tid])) tid (nt ++ [sid])⟩
  | _, _ => .crash

/-- `DefaultGraph::has_edge`: errors (`MissingNode`) when either node is
absent, otherwise reports adjacency. -/
def has_edge (g : DefaultGraph) (sid tid : Nat) : Out Bool :=
  match alookup g.adjacency sid with
  | none => .crash
  | some ns =>
    if tid ∈ ns then .ok true
    else if acontains g.adjacency tid then .ok false
    else .crash

end DefaultGraph

/-- Embedding of `rule.rs`'s `NodeSet<FromNode>`, the left-hand pattern:
ordered pattern nodes plus pattern-internal edges over `FromNode.id`s. -/
structure NodeSet where
  nodes : List FromNode
  edges : List (Int × Int)
deriving DecidableEq, Repr

/-- `NodeSet::as_graph`: encodes the pattern ids and edges as a
`DefaultGraph` (panicking on duplicate ids or dangling edges, as the
source's `unwrap_or_else(panic!)` does).  Ids pass through `as usize`. -/
def NodeSet.as_graph (ns : NodeSet) : Out DefaultGraph :=
  let step1 := ns.nodes.foldl
    (fun acc node =>
      match acc with
      | .ok g => g.add_node_with (usizeOfI32 node.id)
      | e => e)
    (.ok DefaultGraph.new)
  ns.edges.foldl
    (fun acc e =>
      match acc with
      | .ok g => g.add_edge (usizeOfI32 e.1) (usizeOfI32 e.2)
      | err => err)
    step1

/-- Embedding of `procedures.rs`'s `Procedure` (with the payload structs
inlined as constructor arguments). -/
inductive Procedure where
  | delete : Int → Procedure
  | replace : Int → ToNode → Procedure
  | add : List Int → ToNode → Procedure
  | merge : List Int → Int → Procedure
deriving DecidableEq, Repr

/-- Embedding of `procedures.rs`'s `ApplyResult`. -/
inductive ApplyResult where
  | removed : List Nat → ApplyResult
  | added : Nat → ApplyResult
  | modified : Nat → ApplyResult
  | none : ApplyResult
  | failed : ApplyResult
deriving DecidableEq, Repr

/-- A discovered mapping from pattern ids (`i32`) to graph ids (`usize`). -/
abbrev Mapping := List (Int × Nat)

/-- `Procedure::targets_exist`: every referenced pattern id must be a key
of the mapping. -/
def Procedure.targets_exist (p : Procedure) (mapping : Mapping) : Bool :=
  match p with
  | .delete target => acontains mapping target
  | .replace target _ => acontains mapping target
  | .add neighbors _ => neighbors.all (fun nb => acontains mapping nb)
  | .merge targets _ => targets.all (fun t => acontains mapping t)

/-- Helper for the `Add` arm: walk the neighbor list, wiring an edge from
the new node to each resolved neighbor and making the first resolved one
the ancestor; an unresolved neighbor stops the walk (the mutations made so
far remain, as in the source).  Returns the graph, the ancestor choice and
whether every neighbor resolved. -/
def add_neighbors (mapping : Mapping) (node_id : Nat) :
    List Int → RggGraph → Option Nat → RggGraph × Option Nat × Bool
  | [], g, anc => (g, anc, true)
  | nb :: t, g, anc =>
    match alookup mapping nb with
    | some n =>
      let (g, anc) :=
        if anc.isNone then ({ g with graph := g.graph.add_ancestor node_id n }, some n)
        else (g, anc)
      add_neighbors mapping node_id t { g with graph := g.graph.add_edge node_id n } anc
    | none => (g, anc, false)

/-- Helper for the `Merge` arm: union of the live-graph neighbors of every
target plus the first ancestor found, or `none` when some target is not in
the mapping.  The source collects neighbors into a `HashSet`; the embedding
keeps them as a sorted deduplicated list (iteration order of the set is not
observable in any verified property). -/
def merge_collect (g : RggGraph) (mapping : Mapping) :
    List Int → List Nat → Option Nat → Out (Option (List Nat × Option Nat))
  | [], ns, anc => .ok (some (ns, anc))
  | rid :: t, ns, anc =>
    match alookup mapping rid with
    | some id =>
      let anc :=
        if anc = Option.none ∧ (g.graph.get_ancestor id).isSome then g.graph.get_ancestor id
        else anc
      match g.graph.neighbors id with
      | .crash => .crash
      | .fuelOut => .fuelOut
      | .ok nbrs => merge_collect g mapping t (nbrs.foldl sinsert ns) anc
    | none => .ok none

/-- Helper for the `Merge` arm: remove every non-surviving target, first
reparenting its overlay children onto the survivor. -/
def merge_remove (mapping : Mapping) (final_node : Int) (final_id : Nat) :
    List Int → RggGraph → List Nat → Out (RggGraph × List Nat)
  | [], g, removed => .ok (g, removed)
  | rid :: t, g, removed =>
    if rid ≠ final_node then
      match alookup mapping rid with
      | none => .crash
      | some node_id =>
        let g := { g with graph := g.graph.remove_children node_id (some final_id) }
        merge_remove mapping final_node final_id t (g.remove_node node_id) (removed ++ [node_id])
    else merge_remove mapping final_node final_id t g removed

/-- `Procedure::apply` from `procedures.rs`, with the external expression
evaluator `ToNode::eval` (meval + rand) abstracted as `evalFn`.  `.crash`
marks the source's `unwrap`/`expect`/index panics. -/
def Procedure.apply (evalFn : ToNode → Option Node → Node) (p : Procedure)
    (g : RggGraph) (mapping : Mapping) : Out (ApplyResult × RggGraph × Mapping) :=
  match p with
  | .delete target =>
    match alookup mapping target with
    | some t => .ok (.removed [t], g.remove_node t, aremove mapping target)
    | none => .ok (.failed, g, mapping)
  | .replace target replacement =>
    match alookup mapping target with
    | some t =>
      let new_node := evalFn replacement (alookup g.values t)
      .ok (.modified t, { g with values := ainsert g.values t new_node }, mapping)
    | none => .ok (.failed, g, mapping)
  | .add neighbors new_node =>
    match g.insert_node with
    | .crash => .crash
    | .fuelOut => .fuelOut
    | .ok (g, node_id) =>
      match add_neighbors mapping node_id neighbors g Option.none with
      | (g, _, false) => .ok (.failed, g, mapping)
      | (g, anc, true) =>
        let node :=
          match anc with
          | some n => evalFn new_node (alookup g.values n)
          | none => evalFn new_node Option.none
        .ok (.added node_id, { g with values := ainsert g.values node_id node }, mapping)
  | .merge targets final_node =>
    match merge_collect g mapping targets [] Option.none with
    | .crash => .crash
    | .fuelOut => .fuelOut
    | .ok Option.none => .ok (.failed, g, mapping)
    | .ok (some (neighbors, ancestor)) =>
      match alookup mapping final_node with
      | none => .crash
      | some final_id =>
        match merge_remove mapping final_node final_id targets g [] with
        | .crash => .crash
        | .fuelOut => .fuelOut
        | .ok (g, removed) =>
          let g := neighbors.foldl
            (fun g nb => { g with graph := g.graph.add_edge final_id nb }) g
          let g :=
            match ancestor with
            | some a => { g with graph := g.graph.add_ancestor final_id a }
            | none => g
          .ok (.removed removed, g, mapping)

/-- Embedding of the engine's `Rule`.  The `from` pattern is exactly
`rule.rs`'s `NodeSet<FromNode>` (renamed `from_` since `from` is a Lean
keyword).  The right-hand side `to_` is the ordered procedure list that
`serde.rs`/`main.rs` deserialize and the spec describes; `rule.rs` in the
tree only holds a stale stub for it. -/
structure Rule where
  from_ : NodeSet
  to_ : List Procedure
deriving DecidableEq, Repr

/-- The three-way outcome of `continue_search`. -/
inductive MatchingDecision where
  | noMatch
  | cont
  | mapped
deriving DecidableEq, Repr

/-- Embedding of `matcher.rs`'s `MatchingState`.  The borrowed `rule` and
`graph` references are passed to each function instead of being stored. -/
structure MatchingState where
  relations : DefaultGraph
  mapping : Mapping
  pattern_index : Int
  progress : List (Nat × Nat)
  graph_nodes : List Nat
deriving DecidableEq, Repr

namespace MatchingState

/-- `MatchingState::new`: builds the pattern-relations graph and snapshots
the graph's node ids (ascending, as `BTreeSet` iteration yields them). -/
def new (rule : Rule) (graph : RggGraph) : Out MatchingState :=
  match rule.from_.as_graph with
  | .crash => .crash
  | .fuelOut => .fuelOut
  | .ok rel => .ok ⟨rel, [], 0, [(0, 0)], graph.graph.nodes⟩

/-- `self.progress.entry(i).or_insert(0)`. -/
def or_insert_progress (s : MatchingState) (k : Nat) : MatchingState × Nat :=
  match alookup s.progress k with
  | some v => (s, v)
  | none => ({ s with progress := ainsert s.progress k 0 }, 0)

/-- The scan loop inside `continue_search`: starting at snapshot index `i`
with `k` indices left, skip everything when the rule id is already mapped,
otherwise look the candidate up **by index** in `graph.values` (panicking
on a missing key) and stop at the first predicate match. -/
def scan_nodes (graph : RggGraph) (fn : FromNode) (mapping : Mapping) :
    Nat → Nat → Out (Option Nat)
  | _, 0 => .ok Option.none
  | i, k + 1 =>
    if acontains mapping fn.id then scan_nodes graph fn mapping (i + 1) k
    else
      match alookup graph.values i with
      | none => .crash
      | some node =>
        if fn.match_node node then .ok (some i)
        else scan_nodes graph fn mapping (i + 1) k

/-- The tail of `continue_search` after the bookmark `start` has been
fetched (and possibly seeded) by `or_insert`: scan the snapshot, bind the
first predicate match, and on an exhausted scan either report no match (at
level 0) or backtrack one level. -/
def continue_scan (graph : RggGraph) (fn : FromNode) (s : MatchingState) (start : Nat) :
    Out (MatchingDecision × MatchingState) :=
  match scan_nodes graph fn s.mapping start (s.graph_nodes.length - start) with
  | .crash => .crash
  | .fuelOut => .fuelOut
  | .ok (some i) =>
    match s.graph_nodes.get? i with
    | none => .crash
    | some gid =>
      .ok (.cont, { s with
        mapping := ainsert s.mapping fn.id gid,
        progress := ainsert s.progress (usizeOfI32 s.pattern_index) (i + 1),
        pattern_index := s.pattern_index + 1 })
  | .ok Option.none =>
    if s.pattern_index = 0 then .ok (.noMatch, s)
    else
      .ok (.cont, { s with
        mapping := aremove s.mapping fn.id,
        progress := aremove s.progress (usizeOfI32 s.pattern_index),
        pattern_index := s.pattern_index - 1 })

/-- `MatchingState::continue_search`, line for line: exit 1 when every
pattern node is mapped (note `pattern_index as usize` wraps negatives);
exit 2 when the level-0 bookmark has passed the live graph's order;
otherwise fetch-or-seed the bookmark of the current level and scan.  (The
source computes `rule_id` after the `or_insert`; both can only end in the
same panic, so the order is immaterial.) -/
def continue_search (rule : Rule) (graph : RggGraph) (s : MatchingState) :
    Out (MatchingDecision × MatchingState) :=
  if rule.from_.nodes.length ≤ usizeOfI32 s.pattern_index then .ok (.mapped, s)
  else
    match alookup s.progress 0 with
    | none => .crash
    | some p0 =>
      if graph.graph.order ≤ p0 then .ok (.noMatch, s)
      else
        match rule.from_.nodes.get? (usizeOfI32 s.pattern_index) with
        | none => .crash
        | some fn =>
          continue_scan graph fn
            (s.or_insert_progress (usizeOfI32 s.pattern_index)).1
            (s.or_insert_progress (usizeOfI32 s.pattern_index)).2

/-- The edge loop of `check_edges`: both endpoints are looked up in the
mapping (`HashMap` indexing panics when absent) and the **mapped graph
ids** are then tested against `self.relations`, the helper graph built
from pattern ids. -/
def check_edges_loop (s : MatchingState) : List (Int × Int) → Out Bool
  | [] => .ok true
  | (a, b) :: t =>
    match alookup s.mapping a, alookup s.mapping b with
    | some f, some to_ =>
      match s.relations.has_edge f to_ with
      | .crash => .crash
      | .fuelOut => .fuelOut
      | .ok true => check_edges_loop s t
      | .ok false => .ok false
    | _, _ => .crash

/-- `MatchingState::check_edges` (panics when not all nodes are mapped;
a `has_edge` error propagates and `next()` turns it into a panic). -/
def check_edges (rule : Rule) (s : MatchingState) : Out Bool :=
  if usizeOfI32 s.pattern_index < rule.from_.nodes.length then .crash
  else s.check_edges_loop rule.from_.edges

/-- `MatchingState::reset_match`: step the cursor back and drop the mapping
of the now-current pattern node (indexing `nodes[pattern_index as usize]`
panics when the cursor leaves the pattern, e.g. on an empty pattern). -/
def reset_match (rule : Rule) (s : MatchingState) : Out MatchingState :=
  let s := { s with pattern_index := s.pattern_index - 1 }
  match rule.from_.nodes.get? (usizeOfI32 s.pattern_index) with
  | none => .crash
  | some fn => .ok { s with mapping := aremove s.mapping fn.id }

/-- `Iterator::next` for `MatchingState`, with fuel bounding the source's
unbounded `loop`.  Yields `some mapping` (a clone taken before
`reset_match`), `none` on exhaustion, or `.crash` on any panic. -/
def nextFuel (rule : Rule) (graph : RggGraph) :
    Nat → MatchingState → Out (Option Mapping × MatchingState)
  | 0, _ => .fuelOut
  | f + 1, s =>
    match continue_search rule graph s with
    | .crash => .crash
    | .fuelOut => .fuelOut
    | .ok (.noMatch, s1) => .ok (Option.none, s1)
    | .ok (.mapped, s1) =>
      match check_edges rule s1 with
      | .crash => .crash
      | .fuelOut => .fuelOut
      | .ok true =>
        let output := s1.mapping
        match reset_match rule s1 with
        | .crash => .crash
        | .fuelOut => .fuelOut
        | .ok s2 => .ok (some output, s2)
      | .ok false =>
        match reset_match rule s1 with
        | .crash => .crash
        | .fuelOut => .fuelOut
        | .ok s2 => nextFuel rule graph f s2
    | .ok (.cont, s1) => nextFuel rule graph f s1

/-- Iterating the matcher to exhaustion (`collect::<Vec<_>>()`), collecting
every yielded mapping; `.ok` means the iterator terminated with a clean
"no more solutions". -/
def collectFuel (rule : Rule) (graph : RggGraph) :
    Nat → MatchingState → Out (List Mapping)
  | 0, _ => .fuelOut
  | f + 1, s =>
    match nextFuel rule graph (f + 1) s with
    | .crash => .crash
    | .fuelOut => .fuelOut
    | .ok (Option.none, _) => .ok []
    | .ok (some m, s') =>
      match collectFuel rule graph f s' with
      | .crash => .crash
      | .fuelOut => .fuelOut
      | .ok ms => .ok (m :: ms)

end MatchingState

/-- Modelled from the spec: `RuleResult`, the aggregate of a whole rule
application.  Its definition is missing from `src/` — `rule.rs` holds only
a stale stub of `Rule::apply`, while `main.rs` imports and consumes
`RuleResult` with `removed`/`added`/`modified` id lists (spec §3). -/
structure RuleResult where
  removed : List Nat
  added : List Nat
  modified : List Nat
deriving DecidableEq, Repr

/-- Modelled from the spec: `RuleResult::new()` used by `main.rs`. -/
def RuleResult.new : RuleResult :=
  ⟨[], [], []⟩

/-- Modelled from the spec: folding one per-procedure `ApplyResult` into
the running `RuleResult` (spec §3/§4.6); `None` and `Failed` contribute
nothing. -/
def RuleResult.add_apply (r : RuleResult) (a : ApplyResult) : RuleResult :=
  match a with
  | .removed ids => { r with removed := r.removed ++ ids }
  | .added id => { r with added := r.added ++ [id] }
  | .modified id => { r with modified := r.modified ++ [id] }
  | .none => r
  | .failed => r

/-- Modelled from the spec: running one mapping's procedures in declared
order against the live graph, threading the mapping (which `Delete`
mutates) and folding each `ApplyResult` (spec §4.6 step 3). -/
def run_procs (evalFn : ToNode → Option Node → Node) :
    List Procedure → RuleResult → RggGraph → Mapping → Out (RuleResult × RggGraph)
  | [], res, g, _ => .ok (res, g)
  | p :: t, res, g, m =>
    match p.apply evalFn g m with
    | .crash => .crash
    | .fuelOut => .fuelOut
    | .ok (a, g', m') => run_procs evalFn t (res.add_apply a) g' m'

/-- Modelled from the spec: per-mapping application — a mapping whose
procedures' `targets_exist` prerequisites fail is skipped entirely
(spec §4.6 step 2), otherwise its procedures run in order. -/
def apply_mappings (evalFn : ToNode → Option Node → Node) (r : Rule) :
    List Mapping → RuleResult → RggGraph → Out (RuleResult × RggGraph)
  | [], res, g => .ok (res, g)
  | m :: t, res, g =>
    if r.to_.all (fun p => p.targets_exist m) then
      match run_procs evalFn r.to_ res g m with
      | .crash => .crash
      | .fuelOut => .fuelOut
      | .ok (res', g') => apply_mappings evalFn r t res' g'
    else apply_mappings evalFn r t res g

/-- Running the matcher of a rule to completion on a graph: construct the
`MatchingState` and collect every yielded mapping. -/
def Rule.collect_matches (r : Rule) (g : RggGraph) (fuel : Nat) : Out (List Mapping) :=
  match MatchingState.new r g with
  | .crash => .crash
  | .fuelOut => .fuelOut
  | .ok s0 => MatchingState.collectFuel r g fuel s0

/-- Modelled from the spec: `Rule::apply` (spec §4.6) — the body is missing
from `src/` (`rule.rs` line 110 is an empty stub `pub fn apply(&self, graph:
&mut RggGraph) {}` while its caller `main.rs` expects a `RuleResult`).  Run
the matcher to completion, collecting all mappings before mutating
anything, then apply each collected mapping. -/
def Rule.apply (evalFn : ToNode → Option Node → Node) (r : Rule) (g : RggGraph)
    (fuel : Nat) : Out (RuleResult × RggGraph) :=
  match MatchingState.new r g with
  | .crash => .crash
  | .fuelOut => .fuelOut
  | .ok s0 =>
    match MatchingState.collectFuel r g fuel s0 with
    | .crash => .crash
    | .fuelOut => .fuelOut
    | .ok ms => apply_mappings evalFn r ms RuleResult.new g

/-! Concrete fixtures used by several claims, mirroring the unit tests of
`matcher.rs` and `procedures.rs`. -/

/-- The junk default used only under `Out.getD` on branches that are proved
unreachable. -/
def junkState : MatchingState :=
  ⟨DefaultGraph.new, [], 0, [], []⟩

/-- The two-pattern-node rule of `matcher.rs::get_test_rule`: ids 0 and 1,
no constraints, one pattern edge `(0, 1)`. -/
def testRule : Rule :=
  ⟨⟨[⟨0, Option.none, []⟩, ⟨1, Option.none, []⟩], [(0, 1)]⟩, []⟩

/-- The one-pattern-node rule of `matcher.rs::get_simple_test_rule`. -/
def simpleRule : Rule :=
  ⟨⟨[⟨0, Option.none, []⟩], []⟩, []⟩

/-- The graph of `matcher.rs::get_test_graph`: two fresh nodes joined by
one edge. -/
def twoNodeGraph : RggGraph :=
  let g := RggGraph.new
  let g := (g.insert_node.getD (g, 0)).1
  let g := (g.insert_node.getD (g, 0)).1
  { g with graph := g.graph.add_edge 0 1 }

/-! Basic lemmas about the association-list and sorted-set helpers. -/

theorem alookup_ainsert_self {κ α : Type} [DecidableEq κ] (l : List (κ × α)) (k : κ) (v : α) :
    alookup (ainsert l k v) k = some v := by
  induction l with
  | nil => simp [ainsert, alookup]
  | cons h t ih =>
    by_cases hk : h.1 = k
    · simp [ainsert, hk, alookup]
    · simpa [ainsert, hk, alookup] using ih

theorem alookup_ainsert_ne {κ α : Type} [DecidableEq κ] (l : List (κ × α)) (k k' : κ) (v : α)
    (h : k' ≠ k) : alookup (ainsert l k v) k' = alookup l k' := by
  induction l with
  | nil =>
    show alookup [(k, v)] k' = alookup ([] : List (κ × α)) k'
    simp only [alookup]
    rw [if_neg (fun hc : k = k' => h hc.symm)]
  | cons hd t ih =>
    obtain ⟨a, b⟩ := hd
    show alookup (if a = k then (k, v) :: t else (a, b) :: ainsert t k v) k' =
      alookup ((a, b) :: t) k'
    by_cases hk : a = k
    · rw [if_pos hk]
      show (if k = k' then some v else alookup t k') = (if a = k' then some b else alookup t k')
      rw [if_neg (fun hc : k = k' => h hc.symm), if_neg (fun hc : a = k' => h (hk ▸ hc).symm)]
    · rw [if_neg hk]
      show (if a = k' then some b else alookup (ainsert t k v) k') =
        (if a = k' then some b else alookup t k')
      by_cases hk' : a = k'
      · rw [if_pos hk', if_pos hk']
      · rw [if_neg hk', if_neg hk']
        exact ih

theorem alookup_aremove_ne {κ α : Type} [DecidableEq κ] (l : List (κ × α)) (k k' : κ)
    (h : k' ≠ k) : alookup (aremove l k) k' = alookup l k' := by
  induction l with
  | nil => simp [aremove]
  | cons hd t ih =>
    obtain ⟨a, b⟩ := hd
    show alookup (if a = k then t else (a, b) :: aremove t k) k' = alookup ((a, b) :: t) k'
    by_cases hk : a = k
    · rw [if_pos hk]
      show alookup t k' = (if a = k' then some b else alookup t k')
      rw [if_neg (fun hc : a = k' => h (hk ▸ hc).symm)]
    · rw [if_neg hk]
      show (if a = k' then some b else alookup (aremove t k) k') =
        (if a = k' then some b else alookup t k')
      by_cases hk' : a = k'
      · rw [if_pos hk', if_pos hk']
      · rw [if_neg hk', if_neg hk']
        exact ih

theorem alookup_isSome_of_mem_keys {κ α : Type} [DecidableEq κ] (l : List (κ × α)) (k : κ)
    (h : k ∈ l.map Prod.fst) : (alookup l k).isSome = true := by
  induction l with
  | nil => simp at h
  | cons hd t ih =>
    obtain ⟨a, b⟩ := hd
    by_cases hk : a = k
    · simp [alookup, hk]
    · have ht : k ∈ t.map Prod.fst := by
        rw [List.map_cons] at h
        rcases List.mem_cons.1 h with h' | h'
        · exact absurd h'.symm hk
        · exact h'
      simp [alookup, hk, ih ht]

theorem mem_keys_of_alookup {κ α : Type} [DecidableEq κ] (l : List (κ × α)) (k : κ)
    (h : (alookup l k).isSome = true) : k ∈ l.map Prod.fst := by
  induction l with
  | nil => simp [alookup] at h
  | cons hd t ih =>
    obtain ⟨a, b⟩ := hd
    rw [List.map_cons]
    by_cases hk : a = k
    · exact List.mem_cons.2 (Or.inl hk.symm)
    · simp only [alookup, if_neg hk] at h
      exact List.mem_cons.2 (Or.inr (ih h))

theorem alookup_eq_none_of_not_mem {κ α : Type} [DecidableEq κ] (l : List (κ × α)) (k : κ)
    (h : k ∉ l.map Prod.fst) : alookup l k = none := by
  induction l with
  | nil => rfl
  | cons hd t ih =>
    obtain ⟨a, b⟩ := hd
    have hk : a ≠ k := fun hc => h (by simp [hc])
    have ht : k ∉ t.map Prod.fst := fun hc => h (by simp [hc])
    simp only [alookup, if_neg hk]
    exact ih ht

theorem alookup_aremove_self {κ α : Type} [DecidableEq κ] (l : List (κ × α)) (k : κ)
    (h : (l.map Prod.fst).Nodup) : alookup (aremove l k) k = none := by
  induction l with
  | nil => rfl
  | cons hd t ih =>
    obtain ⟨a, b⟩ := hd
    rw [List.map_cons, List.nodup_cons] at h
    by_cases hk : a = k
    · simp only [aremove, if_pos hk]
      exact alookup_eq_none_of_not_mem t k (hk ▸ h.1)
    · simp only [aremove, if_neg hk, alookup, if_neg hk]
      exact ih h.2

theorem keys_ainsert_subset {κ α : Type} [DecidableEq κ] (l : List (κ × α)) (k k' : κ) (v : α)
    (h : k' ∈ (ainsert l k v).map Prod.fst) : k' = k ∨ k' ∈ l.map Prod.fst := by
  induction l with
  | nil => exact Or.inl (by simpa [ainsert] using h)
  | cons hd t ih =>
    obtain ⟨a, b⟩ := hd
    rw [List.map_cons]
    by_cases hk : a = k
    · simp only [ainsert, if_pos hk, List.map_cons] at h
      rcases List.mem_cons.1 h with h' | h'
      · exact Or.inl h'
      · exact Or.inr (List.mem_cons.2 (Or.inr h'))
    · simp only [ainsert, if_neg hk, List.map_cons] at h
      rcases List.mem_cons.1 h with h' | h'
      · exact Or.inr (List.mem_cons.2 (Or.inl h'))
      · rcases ih h' with h'' | h''
        · exact Or.inl h''
        · exact Or.inr (List.mem_cons.2 (Or.inr h''))

theorem nodup_keys_ainsert {κ α : Type} [DecidableEq κ] (l : List (κ × α)) (k : κ) (v : α)
    (h : (l.map Prod.fst).Nodup) : ((ainsert l k v).map Prod.fst).Nodup := by
  induction l with
  | nil => simp [ainsert]
  | cons hd t ih =>
    obtain ⟨a, b⟩ := hd
    rw [List.map_cons, List.nodup_cons] at h
    by_cases hk : a = k
    · simp only [ainsert, if_pos hk, List.map_cons]
      exact List.nodup_cons.2 ⟨hk ▸ h.1, h.2⟩
    · simp only [ainsert, if_neg hk, List.map_cons]
      refine List.nodup_cons.2 ⟨?_, ih h.2⟩
      intro hc
      rcases keys_ainsert_subset t k a v hc with h' | h'
      · exact hk h'
      · exact h.1 h'

theorem keys_aremove_subset {κ α : Type} [DecidableEq κ] (l : List (κ × α)) (k k' : κ)
    (h : k' ∈ (aremove l k).map Prod.fst) : k' ∈ l.map Prod.fst := by
  induction l with
  | nil => exact absurd h (by simp [aremove])
  | cons hd t ih =>
    obtain ⟨a, b⟩ := hd
    rw [List.map_cons]
    by_cases hk : a = k
    · simp only [aremove, if_pos hk] at h
      exact List.mem_cons.2 (Or.inr h)
    · simp only [aremove, if_neg hk, List.map_cons] at h
      rcases List.mem_cons.1 h with h' | h'
      · exact List.mem_cons.2 (Or.inl h')
      · exact List.mem_cons.2 (Or.inr (ih h'))

theorem nodup_keys_aremove {κ α : Type} [DecidableEq κ] (l : List (κ × α)) (k : κ)
    (h : (l.map Prod.fst).Nodup) : ((aremove l k).map Prod.fst).Nodup := by
  induction l with
  | nil => simp [aremove]
  | cons hd t ih =>
    obtain ⟨a, b⟩ := hd
    rw [List.map_cons, List.nodup_cons] at h
    by_cases hk : a = k
    · simp only [aremove, if_pos hk]
      exact h.2
    · simp only [aremove, if_neg hk, List.map_cons]
      exact List.nodup_cons.2 ⟨fun hc => h.1 (keys_aremove_subset t k a hc), ih h.2⟩

theorem acontains_ainsert {κ α : Type} [DecidableEq κ] (l : List (κ × α)) (k k' : κ) (v : α) :
    acontains (ainsert l k v) k' = true ↔ k' = k ∨ acontains l k' = true := by
  unfold acontains
  by_cases hk : k' = k
  · simp [hk, alookup_ainsert_self]
  · simp [alookup_ainsert_ne l k k' v hk, hk]

theorem acontains_aremove {κ α : Type} [DecidableEq κ] (l : List (κ × α)) (k k' : κ)
    (h : acontains (aremove l k) k' = true) : acontains l k' = true :=
  alookup_isSome_of_mem_keys l k' (keys_aremove_subset l k k' (mem_keys_of_alookup _ k' h))

theorem acontains_aremove_self {κ α : Type} [DecidableEq κ] (l : List (κ × α)) (k : κ)
    (h : (l.map Prod.fst).Nodup) : acontains (aremove l k) k = false := by
  unfold acontains
  simp [alookup_aremove_self l k h]

theorem mem_sinsert (l : List Nat) (k a : Nat) : a ∈ sinsert l k ↔ a = k ∨ a ∈ l := by
  induction l with
  | nil => simp [sinsert]
  | cons hd t ih =>
    by_cases h1 : k < hd
    · simp [sinsert, h1]
    · by_cases h2 : k = hd
      · subst h2
        constructor
        · intro h
          exact Or.inr (by simpa [sinsert, h1] using h)
        · rintro (rfl | h)
          · simpa [sinsert, h1] using List.mem_cons_self _ _
          · simpa [sinsert, h1] using h
      · constructor
        · intro h
          rcases (by simpa [sinsert, h1, h2] using h : a = hd ∨ a ∈ sinsert t k) with h | h
          · exact Or.inr (by simp [h])
          · rcases ih.1 h with h | h
            · exact Or.inl h
            · exact Or.inr (by simp [h])
        · rintro (rfl | h)
          · simp [sinsert, h1, h2, ih.2 (Or.inl rfl)]
          · rcases List.mem_cons.1 h with rfl | h
            · simp [sinsert, h1, h2]
            · simp [sinsert, h1, h2, ih.2 (Or.inr h)]

theorem mem_serase (l : List Nat) (k a : Nat) (h : a ∈ serase l k) : a ∈ l := by
  induction l with
  | nil => simpa [serase] using h
  | cons hd t ih =>
    by_cases h1 : hd = k
    · simp [serase, h1] at h
      simp [h]
    · rcases List.mem_cons.1 (by simpa [serase, h1] using h) with rfl | h
      · simp
      · simp [ih h]

theorem mem_serase_of_ne (l : List Nat) (k a : Nat) (hne : a ≠ k) (h : a ∈ l) :
    a ∈ serase l k := by
  induction l with
  | nil => simpa [serase] using h
  | cons hd t ih =>
    by_cases h1 : hd = k
    · subst h1
      rcases List.mem_cons.1 h with rfl | h
      · exact absurd rfl hne
      · simpa [serase] using h
    · rcases List.mem_cons.1 h with rfl | h
      · simp [serase, h1]
      · simp [serase, h1, ih h]

theorem mem_einsert (l : List (Nat × Nat)) (x e : Nat × Nat) :
    e ∈ einsert l x ↔ e = x ∨ e ∈ l := by
  induction l with
  | nil => simp [einsert]
  | cons hd t ih =>
    by_cases h1 : pairLt x hd
    · simp [einsert, h1]
    · by_cases h2 : x = hd
      · subst h2
        constructor
        · intro h
          exact Or.inr (by simpa [einsert, h1] using h)
        · rintro (rfl | h)
          · simpa [einsert, h1] using List.mem_cons_self _ _
          · simpa [einsert, h1] using h
      · constructor
        · intro h
          rcases (by simpa [einsert, h1, h2] using h : e = hd ∨ e ∈ einsert t x) with h | h
          · exact Or.inr (by simp [h])
          · rcases ih.1 h with h | h
            · exact Or.inl h
            · exact Or.inr (by simp [h])
        · rintro (rfl | h)
          · simp [einsert, h1, h2, ih.2 (Or.inl rfl)]
          · rcases List.mem_cons.1 h with rfl | h
            · simp [einsert, h1, h2]
            · simp [einsert, h1, h2, ih.2 (Or.inr h)]

theorem mem_eremove (l : List (Nat × Nat)) (x e : Nat × Nat) (h : e ∈ (eremove l x).1) :
    e ∈ l := by
  induction l with
  | nil => simpa [eremove] using h
  | cons hd t ih =>
    by_cases h1 : hd = x
    · simp [eremove, h1] at h
      simp [h]
    · rcases List.mem_cons.1 (by simpa [eremove, h1] using h) with rfl | h
      · simp
      · simp [ih h]

/-! Claim C8: inclusivity of `Condition::Range`. -/

/-- C8: for bound values of the same numeric type, `Condition::Range(lo,
hi).check(v)` holds exactly when `lo ≤ v ∧ v ≤ hi`, inclusive on both ends
(for floats the stored bits are read back through `get::<f32>`); in
particular `Range(0, 2).check(0)` and `.check(2)` are true while
`.check(-1)` and `.check(2.0001f32)` (bits `0x40000347`, exact value
`8389027/4194304`) are false — the latter because the integer-tagged bound
2 reinterprets as the denormal `2^-148`. -/
theorem c8_range_inclusive :
    (∀ lo hi v : Int,
      Condition.checkI32 (.range (Value.new_int lo) (Value.new_int hi)) v =
        (decide (lo ≤ v) && decide (v ≤ hi)))
    ∧ (∀ lb hb : Int, ∀ v : ℚ,
      Condition.checkF32 (.range ⟨lb, .float⟩ ⟨hb, .float⟩) v =
        (decide (decodeF32 (bitsOfI32 lb) ≤ v) && decide (v ≤ decodeF32 (bitsOfI32 hb))))
    ∧ Condition.checkI32 (.range (Value.new_int 0) (Value.new_int 2)) 0 = true
    ∧ Condition.checkI32 (.range (Value.new_int 0) (Value.new_int 2)) 2 = true
    ∧ Condition.checkI32 (.range (Value.new_int 0) (Value.new_int 2)) (-1) = false
    ∧ Condition.checkF32 (.range (Value.new_int 0) (Value.new_int 2)) (8389027 / 4194304) = false := by
  refine ⟨fun lo hi v => rfl, fun lb hb v => rfl, by decide, by decide, by decide, ?_⟩
  have hb2 : bitsOfI32 2 = 2 := by decide
  have hb0 : bitsOfI32 0 = 0 := by decide
  have h2 : (Value.new_int 2).getF32 = 1 / 2 ^ 148 := by
    show decodeF32 (bitsOfI32 2) = 1 / 2 ^ 148
    rw [hb2]
    norm_num [decodeF32]
  have h0 : (Value.new_int 0).getF32 = 0 := by
    show decodeF32 (bitsOfI32 0) = 0
    rw [hb0]
    norm_num [decodeF32]
  have hle : ¬ ((8389027 / 4194304 : ℚ) ≤ (Value.new_int 2).getF32) := by
    rw [h2]
    norm_num
  simp only [Condition.checkF32, decide_eq_false hle, Bool.and_false]

/-! Claim C9: `FromNode::match_node` consults only the name. -/

/-- C9: `FromNode::match_node` is true exactly when the name constraint is
absent or equals the node's name; the attribute `Condition`s in
`FromNode.values` are never consulted, so nodes with the same name are
matched identically. -/
theorem c9_match_node_name_only :
    (∀ (f : FromNode) (n : Node),
      f.match_node n = true ↔ (f.name = Option.none ∨ f.name = some n.name))
    ∧ (∀ (f : FromNode) (vs : List (String × Condition)) (n : Node),
      FromNode.match_node { f with values := vs } n = f.match_node n)
    ∧ (∀ (f : FromNode) (n₁ n₂ : Node),
      n₁.name = n₂.name → f.match_node n₁ = f.match_node n₂) := by
  refine ⟨fun f n => ?_, fun f vs n => ?_, fun f n₁ n₂ h => ?_⟩
  · cases hname : f.name with
    | none => simp [FromNode.match_node, hname]
    | some nm =>
      by_cases hc : nm = n.name
      · simp [FromNode.match_node, hname, hc]
      · simp [FromNode.match_node, hname, hc]
  · obtain ⟨i, nm, vals⟩ := f
    cases nm <;> rfl
  · unfold FromNode.match_node
    rw [h]

/-- C9 witness: the third conjunct applied at a concrete pattern node and
two concrete nodes sharing a name but with different attribute values. -/
theorem c9_match_node_name_only_witness :
    FromNode.match_node ⟨0, some "stem", [("dir", .equals (Value.new_int 7))]⟩
        ⟨"stem", [("dir", Value.new_int 0)]⟩ =
      FromNode.match_node ⟨0, some "stem", [("dir", .equals (Value.new_int 7))]⟩
        ⟨"stem", [("dir", Value.new_int 5)]⟩ :=
  c9_match_node_name_only.2.2 _ _ _ rfl

/-! Claim C6: `neighbors` on absent ids. -/

/-- A graph whose node 0 was added (gaining edges) and then removed:
`remove_node` never clears the adjacency map, so the stale entry survives. -/
def c6Graph : DirtyGraph :=
  let g := DirtyGraph.default
  let g := (g.add_node.getD (g, 0)).1
  let g := (g.add_node.getD (g, 0)).1
  let g := g.add_edge 0 1
  (g.remove_node 0).1

/-- C6 counterexample: the claim fails for an id that was added and then
removed — node 0 is absent from `c6Graph`, yet `neighbors(0)` returns the
stale iterator over `[1]` instead of a `MissingNode` error. -/
theorem c6_counterexample :
    c6Graph.has_node 0 = false ∧ c6Graph.neighbors 0 = .ok [1] := by
  decide

/-- C6 amended: `neighbors(id)` fails with `MissingNode` exactly when `id`
has no entry in the adjacency map — i.e. for ids that were never added (in
particular every id on a fresh graph); for an added-then-removed id, the
adjacency entry survives `remove_node`, so `neighbors` returns the stale
neighbor list instead of failing. -/
theorem c6_amended :
    (∀ id, DirtyGraph.default.neighbors id = .crash)
    ∧ (∀ (g : DirtyGraph) (id : Nat),
        g.neighbors id = .crash ↔ alookup g.adjacency id = Option.none) := by
  constructor
  · intro id
    rfl
  · intro g id
    unfold DirtyGraph.neighbors
    cases alookup g.adjacency id <;> simp

/-! Claim C5: the edge-endpoint / adjacency invariant of `DirtyGraph`. -/

/-- The first half of the claimed invariant: both endpoints of every stored
edge are present in the node set. -/
def DirtyGraph.edge_endpoints_ok (g : DirtyGraph) : Prop :=
  ∀ e ∈ g.edges, e.1 ∈ g.nodes ∧ e.2 ∈ g.nodes

/-- The second half: adjacency is symmetric — an edge `(a, b)` implies
`b ∈ adj[a]` and `a ∈ adj[b]`. -/
def DirtyGraph.adjacency_sym (g : DirtyGraph) : Prop :=
  ∀ e ∈ g.edges,
    e.2 ∈ (alookup g.adjacency e.1).getD [] ∧ e.1 ∈ (alookup g.adjacency e.2).getD []

/-- The invariant of claim C5. -/
def DirtyGraph.Inv (g : DirtyGraph) : Prop :=
  g.edge_endpoints_ok ∧ g.adjacency_sym

instance (g : DirtyGraph) : Decidable g.edge_endpoints_ok := by
  unfold DirtyGraph.edge_endpoints_ok
  exact inferInstance

instance (g : DirtyGraph) : Decidable g.adjacency_sym := by
  unfold DirtyGraph.adjacency_sym
  exact inferInstance

instance (g : DirtyGraph) : Decidable g.Inv := by
  unfold DirtyGraph.Inv
  exact inferInstance

theorem add_to_adjacency_lookup (g : DirtyGraph) (l r k : Nat) :
    alookup (g.add_to_adjacency l r).adjacency k =
      if k = l then some ((alookup g.adjacency l).getD [] ++ [r])
      else alookup g.adjacency k := by
  unfold DirtyGraph.add_to_adjacency
  by_cases hk : k = l
  · cases hl : alookup g.adjacency l <;>
      simp [hk, hl, alookup_ainsert_self]
  · cases hl : alookup g.adjacency l <;>
      simp [hk, alookup_ainsert_ne _ _ _ _ hk]

theorem add_to_adjacency_edges (g : DirtyGraph) (l r : Nat) :
    (g.add_to_adjacency l r).edges = g.edges := by
  unfold DirtyGraph.add_to_adjacency
  cases alookup g.adjacency l <;> rfl

theorem add_to_adjacency_nodes (g : DirtyGraph) (l r : Nat) :
    (g.add_to_adjacency l r).nodes = g.nodes := by
  unfold DirtyGraph.add_to_adjacency
  cases alookup g.adjacency l <;> rfl

theorem add_to_adjacency_ancestors (g : DirtyGraph) (l r : Nat) :
    (g.add_to_adjacency l r).ancestors = g.ancestors := by
  unfold DirtyGraph.add_to_adjacency
  cases alookup g.adjacency l <;> rfl

theorem mem_adj_push_self (g : DirtyGraph) (l r : Nat) :
    r ∈ (alookup (g.add_to_adjacency l r).adjacency l).getD [] := by
  rw [add_to_adjacency_lookup]
  simp

theorem mem_adj_push_mono (g : DirtyGraph) (l r k x : Nat)
    (h : x ∈ (alookup g.adjacency k).getD []) :
    x ∈ (alookup (g.add_to_adjacency l r).adjacency k).getD [] := by
  rw [add_to_adjacency_lookup]
  by_cases hk : k = l
  · subst hk
    simp only [if_pos rfl, Option.getD_some]
    exact List.mem_append.2 (Or.inl h)
  · simpa [hk] using h

theorem inv_add_node_with (g g' : DirtyGraph) (id : Nat)
    (h : g.add_node_with id = .ok g') (hInv : g.Inv) : g'.Inv := by
  unfold DirtyGraph.add_node_with at h
  by_cases hid : id ∈ g.nodes
  · simp [hid] at h
  · simp only [if_neg hid, Out.ok.injEq] at h
    subst h
    obtain ⟨hep, hadj⟩ := hInv
    constructor
    · intro e he
      obtain ⟨h1, h2⟩ := hep e he
      exact ⟨(mem_sinsert _ _ _).2 (Or.inr h1), (mem_sinsert _ _ _).2 (Or.inr h2)⟩
    · intro e he
      obtain ⟨h1, h2⟩ := hep e he
      obtain ⟨a1, a2⟩ := hadj e he
      have hne1 : e.1 ≠ id := fun hc => hid (hc ▸ h1)
      have hne2 : e.2 ≠ id := fun hc => hid (hc ▸ h2)
      constructor
      · rw [alookup_ainsert_ne _ _ _ _ hne1]
        exact a1
      · rw [alookup_ainsert_ne _ _ _ _ hne2]
        exact a2

theorem inv_add_node (g g' : DirtyGraph) (n : Nat)
    (h : g.add_node = .ok (g', n)) (hInv : g.Inv) : g'.Inv := by
  unfold DirtyGraph.add_node at h
  cases hw : g.add_node_with g.next_node with
  | crash => rw [hw] at h; exact absurd h (by simp)
  | fuelOut => rw [hw] at h; exact absurd h (by simp)
  | ok g1 =>
    rw [hw] at h
    simp only [Out.ok.injEq, Prod.mk.injEq] at h
    have h1 := inv_add_node_with g g1 g.next_node hw hInv
    rw [← h.1]
    exact h1

theorem inv_add_edge (g : DirtyGraph) (a b : Nat)
    (ha : a ∈ g.nodes) (hb : b ∈ g.nodes) (hInv : g.Inv) : (g.add_edge a b).Inv := by
  obtain ⟨hep, hadj⟩ := hInv
  have hedges : (g.add_edge a b).edges = einsert g.edges (new_edge a b) := by
    unfold DirtyGraph.add_edge
    rw [add_to_adjacency_edges, add_to_adjacency_edges]
  have hnodes : (g.add_edge a b).nodes = g.nodes := by
    unfold DirtyGraph.add_edge
    rw [add_to_adjacency_nodes, add_to_adjacency_nodes]
  have hmb : b ∈ (alookup (g.add_edge a b).adjacency a).getD [] := by
    unfold DirtyGraph.add_edge
    exact mem_adj_push_mono _ b a a b (mem_adj_push_self _ a b)
  have hma : a ∈ (alookup (g.add_edge a b).adjacency b).getD [] := by
    unfold DirtyGraph.add_edge
    exact mem_adj_push_self _ b a
  have hmono : ∀ k x, x ∈ (alookup g.adjacency k).getD [] →
      x ∈ (alookup (g.add_edge a b).adjacency k).getD [] := by
    intro k x hx
    unfold DirtyGraph.add_edge
    exact mem_adj_push_mono _ b a k x (mem_adj_push_mono _ a b k x hx)
  have horient : ∀ e : Nat × Nat, e = new_edge a b →
      (e.1 = a ∧ e.2 = b) ∨ (e.1 = b ∧ e.2 = a) := by
    intro e he
    unfold new_edge at he
    by_cases hab : a ≤ b
    · rw [if_pos hab] at he
      exact Or.inl ⟨by rw [he], by rw [he]⟩
    · rw [if_neg hab] at he
      exact Or.inr ⟨by rw [he], by rw [he]⟩
  constructor
  · intro e he
    rw [hedges] at he
    rw [hnodes]
    rcases (mem_einsert _ _ _).1 he with he' | he'
    · rcases horient e he' with ⟨h1, h2⟩ | ⟨h1, h2⟩
      · exact ⟨h1 ▸ ha, h2 ▸ hb⟩
      · exact ⟨h1 ▸ hb, h2 ▸ ha⟩
    · exact hep e he'
  · intro e he
    rw [hedges] at he
    rcases (mem_einsert _ _ _).1 he with he' | he'
    · rcases horient e he' with ⟨h1, h2⟩ | ⟨h1, h2⟩
      · rw [h1, h2]
        exact ⟨hmb, hma⟩
      · rw [h1, h2]
        exact ⟨hma, hmb⟩
    · obtain ⟨a1, a2⟩ := hadj e he'
      exact ⟨hmono e.1 e.2 a1, hmono e.2 e.1 a2⟩

theorem inv_remove_edges_with (g : DirtyGraph) (id : Nat) (hInv : g.Inv) :
    (g.remove_edges_with id).1.Inv := by
  obtain ⟨hep, hadj⟩ := hInv
  constructor
  · intro e he
    exact hep e (List.mem_filter.1 he).1
  · intro e he
    exact hadj e (List.mem_filter.1 he).1

theorem inv_remove_node (g : DirtyGraph) (id : Nat) (hInv : g.Inv) :
    (g.remove_node id).1.Inv := by
  obtain ⟨hep, hadj⟩ := hInv
  constructor
  · intro e he
    have hmem : e ∈ g.edges := (List.mem_filter.1 he).1
    have hcond := (List.mem_filter.1 he).2
    simp only [decide_eq_true_eq] at hcond
    obtain ⟨h1, h2⟩ := hep e hmem
    have hne1 : e.1 ≠ id := by
      intro hc
      exact hcond (by simp [hc])
    have hne2 : e.2 ≠ id := by
      intro hc
      exact hcond (by simp [hc])
    exact ⟨mem_serase_of_ne _ _ _ hne1 h1, mem_serase_of_ne _ _ _ hne2 h2⟩
  · intro e he
    exact hadj e (List.mem_filter.1 he).1

theorem inv_remove_edge (g : DirtyGraph) (a b : Nat) (hInv : g.Inv) :
    (g.remove_edge a b).1.Inv := by
  obtain ⟨hep, hadj⟩ := hInv
  constructor
  · intro e he
    exact hep e (mem_eremove _ _ _ he)
  · intro e he
    exact hadj e (mem_eremove _ _ _ he)

/-- The triangle-free three-node graph `0 - 1 - 2` of the `Merge`
counterexample, with the mapping `{pattern 0 → node 1, pattern 1 → node 2}`. -/
def mergeStart : RggGraph :=
  let g := RggGraph.new
  let g := (g.insert_node.getD (g, 0)).1
  let g := (g.insert_node.getD (g, 0)).1
  let g := (g.insert_node.getD (g, 0)).1
  let g := { g with graph := g.graph.add_edge 0 1 }
  { g with graph := g.graph.add_edge 1 2 }

/-- Outcome of merging the two adjacent nodes 1 and 2 (survivor: node 1). -/
def c5MergeOut : Out (ApplyResult × RggGraph × Mapping) :=
  Procedure.apply (fun t _ => Node.new t.name) (.merge [0, 1] 0) mergeStart [(0, 1), (1, 2)]

/-- The graph after the merge. -/
def c5MergeResult : RggGraph :=
  (c5MergeOut.getD (.failed, mergeStart, [])).2.1

/-- C5 counterexample: (1) `add_edge` does not check that its endpoints
exist, so adding edge `(0, 1)` to the empty graph breaks the invariant;
(2) `Merge` of two adjacent targets first removes the non-survivor and then
re-adds the collected neighbor edges — including the edge back to the
removed node 2 — leaving edge `(1, 2)` with 2 absent from the node set. -/
theorem c5_counterexample :
    (DirtyGraph.Inv DirtyGraph.default
      ∧ ¬ DirtyGraph.Inv (DirtyGraph.default.add_edge 0 1))
    ∧ (DirtyGraph.Inv mergeStart.graph
      ∧ c5MergeOut = .ok (.removed [2], c5MergeResult, [(0, 1), (1, 2)])
      ∧ (1, 2) ∈ c5MergeResult.graph.edges
      ∧ 2 ∉ c5MergeResult.graph.nodes
      ∧ ¬ DirtyGraph.Inv c5MergeResult.graph) := by
  decide

/-- C5 amended: the invariant (edge endpoints present, adjacency
symmetric) is preserved by `add_node`, `add_node_with`, `remove_node`,
`remove_edge` and `remove_edges_with` unconditionally, and by `add_edge`
whenever both endpoints are already in the node set; `add_edge` with an
absent endpoint — and therefore `Merge` of mutually adjacent targets,
which re-adds edges toward just-removed nodes — can break it
(see the counterexample). -/
theorem c5_amended :
    (∀ (g g' : DirtyGraph) (n : Nat), g.add_node = .ok (g', n) → g.Inv → g'.Inv)
    ∧ (∀ (g g' : DirtyGraph) (id : Nat), g.add_node_with id = .ok g' → g.Inv → g'.Inv)
    ∧ (∀ (g : DirtyGraph) (a b : Nat),
        a ∈ g.nodes → b ∈ g.nodes → g.Inv → (g.add_edge a b).Inv)
    ∧ (∀ (g : DirtyGraph) (id : Nat), g.Inv → (g.remove_node id).1.Inv)
    ∧ (∀ (g : DirtyGraph) (a b : Nat), g.Inv → (g.remove_edge a b).1.Inv)
    ∧ (∀ (g : DirtyGraph) (id : Nat), g.Inv → (g.remove_edges_with id).1.Inv) :=
  ⟨inv_add_node, inv_add_node_with, inv_add_edge, inv_remove_node,
    inv_remove_edge, inv_remove_edges_with⟩

/-- C5 witness: the `add_edge` preservation conjunct applied to the
two-node graph with its real edge. -/
theorem c5_amended_witness : (twoNodeGraph.graph.add_edge 0 1).Inv :=
  c5_amended.2.2.1 twoNodeGraph.graph 0 1 (by decide) (by decide) (by decide)

/-! Claim C7: the `Add` procedure wires edges and the ancestor overlay. -/

theorem add_ancestor_adjacency (g : DirtyGraph) (me anc : Nat) :
    (g.add_ancestor me anc).adjacency = g.adjacency := rfl

theorem add_edge_ancestors (g : DirtyGraph) (a b : Nat) :
    (g.add_edge a b).ancestors = g.ancestors := by
  unfold DirtyGraph.add_edge
  rw [add_to_adjacency_ancestors, add_to_adjacency_ancestors]

theorem add_ancestor_get (g : DirtyGraph) (me anc : Nat) :
    (g.add_ancestor me anc).get_ancestor me = some anc := by
  unfold DirtyGraph.add_ancestor DirtyGraph.get_ancestor
  exact alookup_ainsert_self _ _ _

theorem add_edge_adjacency_fresh (g : DirtyGraph) (nid x : Nat) (hx : x ≠ nid)
    (l : List Nat) (h : alookup g.adjacency nid = some l) :
    alookup (g.add_edge nid x).adjacency nid = some (l ++ [x]) := by
  unfold DirtyGraph.add_edge
  rw [add_to_adjacency_lookup, if_neg (fun hc : nid = x => hx hc.symm),
    add_to_adjacency_lookup, if_pos rfl]
  show some ((alookup g.adjacency nid).getD [] ++ [x]) = some (l ++ [x])
  rw [h]
  rfl

/-- C7: applying `Add` with neighbors `[a, b]` under a mapping that
resolves both to existing graph nodes yields `Added(new_id)` (the graph's
`next_node`), records the new node in the attribute map, makes its live
adjacency list exactly the two mapped nodes `[m(a), m(b)]`, and sets its
overlay ancestor to `m(a)`, the first listed neighbor — for every
expression evaluator. -/
theorem c7_add_procedure (evalFn : ToNode → Option Node → Node) (g : RggGraph)
    (m : Mapping) (a b : Int) (tn : ToNode) (na nb : Nat)
    (ha : alookup m a = some na) (hb : alookup m b = some nb)
    (hna : na ∈ g.graph.nodes) (hnb : nb ∈ g.graph.nodes)
    (hfresh : g.graph.next_node ∉ g.graph.nodes) :
    ∃ g' : RggGraph,
      Procedure.apply evalFn (.add [a, b] tn) g m = .ok (.added g.graph.next_node, g', m)
      ∧ acontains g'.values g.graph.next_node = true
      ∧ alookup g'.graph.adjacency g.graph.next_node = some [na, nb]
      ∧ g'.graph.get_ancestor g.graph.next_node = some na := by
  have hne_a : na ≠ g.graph.next_node := fun hc => hfresh (hc ▸ hna)
  have hne_b : nb ≠ g.graph.next_node := fun hc => hfresh (hc ▸ hnb)
  have hw : g.graph.add_node_with g.graph.next_node = .ok { g.graph with
      nodes := sinsert g.graph.nodes g.graph.next_node,
      node_generation := ainsert g.graph.node_generation g.graph.next_node
        g.graph.next_generation,
      adjacency := ainsert g.graph.adjacency g.graph.next_node [] } := by
    unfold DirtyGraph.add_node_with
    rw [if_neg hfresh]
  have hins : g.insert_node = .ok
      (⟨{ g.graph with
          nodes := sinsert g.graph.nodes g.graph.next_node,
          node_generation := ainsert g.graph.node_generation g.graph.next_node
            g.graph.next_generation,
          adjacency := ainsert g.graph.adjacency g.graph.next_node [],
          next_node := g.graph.next_node + 1 },
        ainsert g.values g.graph.next_node (Node.new "")⟩, g.graph.next_node) := by
    unfold RggGraph.insert_node DirtyGraph.add_node
    rw [hw]
  refine ⟨⟨((({ g.graph with
          nodes := sinsert g.graph.nodes g.graph.next_node,
          node_generation := ainsert g.graph.node_generation g.graph.next_node
            g.graph.next_generation,
          adjacency := ainsert g.graph.adjacency g.graph.next_node [],
          next_node := g.graph.next_node + 1 } : DirtyGraph).add_ancestor
            g.graph.next_node na).add_edge g.graph.next_node na).add_edge
            g.graph.next_node nb,
      ainsert (ainsert g.values g.graph.next_node (Node.new ""))
        g.graph.next_node
        (evalFn tn (alookup (ainsert g.values g.graph.next_node (Node.new "")) na))⟩,
    ?_, ?_, ?_, ?_⟩
  · unfold Procedure.apply
    rw [hins]
    simp [add_neighbors, ha, hb]
  · unfold acontains
    rw [alookup_ainsert_self]
    rfl
  · have h1 : alookup (({ g.graph with
        nodes := sinsert g.graph.nodes g.graph.next_node,
        node_generation := ainsert g.graph.node_generation g.graph.next_node
          g.graph.next_generation,
        adjacency := ainsert g.graph.adjacency g.graph.next_node [],
        next_node := g.graph.next_node + 1 } : DirtyGraph).add_ancestor
          g.graph.next_node na).adjacency g.graph.next_node = some [] := by
      rw [add_ancestor_adjacency]
      exact alookup_ainsert_self _ _ _
    exact add_edge_adjacency_fresh _ _ nb hne_b _
      (add_edge_adjacency_fresh _ _ na hne_a _ h1)
  · unfold DirtyGraph.get_ancestor
    rw [add_edge_ancestors, add_edge_ancestors]
    exact add_ancestor_get _ _ _

/-- C7 witness: the theorem applied to the two-node graph with mapping
`{0 → 0, 1 → 1}`; the fresh node is id 2. -/
theorem c7_add_procedure_witness :
    ∃ g' : RggGraph,
      Procedure.apply (fun t _ => Node.new t.name) (.add [0, 1] ⟨"n", []⟩)
          twoNodeGraph [(0, 0), (1, 1)] =
        .ok (.added twoNodeGraph.graph.next_node, g', [(0, 0), (1, 1)])
      ∧ acontains g'.values twoNodeGraph.graph.next_node = true
      ∧ alookup g'.graph.adjacency twoNodeGraph.graph.next_node = some [0, 1]
      ∧ g'.graph.get_ancestor twoNodeGraph.graph.next_node = some 0 :=
  c7_add_procedure (fun t _ => Node.new t.name) twoNodeGraph [(0, 0), (1, 1)]
    0 1 ⟨"n", []⟩ 0 1 (by decide) (by decide) (by decide) (by decide) (by decide)

/-! Claim C1: the snapshot-then-apply decomposition of `Rule::apply`. -/

/-- C1: `Rule::apply` first runs the matcher to completion — collecting
every mapping against the pre-mutation graph — and only then applies the
collected mappings, folding each procedure's `ApplyResult` per mapping in
declared order into the returned `RuleResult` (`Rule::apply` and
`RuleResult` are modelled from the spec; the matcher and procedures are the
embedded source). -/
theorem c1_rule_apply_decomposes (evalFn : ToNode → Option Node → Node)
    (r : Rule) (g : RggGraph) (fuel : Nat) :
    Rule.apply evalFn r g fuel =
      match r.collect_matches g fuel with
      | .crash => .crash
      | .fuelOut => .fuelOut
      | .ok ms => apply_mappings evalFn r ms RuleResult.new g := by
  unfold Rule.apply Rule.collect_matches
  cases MatchingState.new r g with
  | crash => rfl
  | fuelOut => rfl
  | ok s0 => cases MatchingState.collectFuel r g fuel s0 <;> rfl

/-! Claim C3: the canonical two-node match. -/

/-- C3: for the two-node pattern (ids 0, 1, one pattern edge) matched
against the two-node graph with one edge, iterating the matcher to
exhaustion yields exactly one mapping, `{0 → 0, 1 → 1}`. -/
theorem c3_two_node_match :
    (match MatchingState.new testRule twoNodeGraph with
      | .ok s0 => MatchingState.collectFuel testRule twoNodeGraph 30 s0
      | _ => .crash) = .ok [[(0, 0), (1, 1)]] := by
  decide

/-! Claim C2: edge verification consults the pattern-id helper graph. -/

/-- Three nodes 0, 1, 2 with the single edge `(0, 2)`: graph nodes 0 and 1
are *not* adjacent. -/
def c2Graph : RggGraph :=
  let g := RggGraph.new
  let g := (g.insert_node.getD (g, 0)).1
  let g := (g.insert_node.getD (g, 0)).1
  let g := (g.insert_node.getD (g, 0)).1
  { g with graph := g.graph.add_edge 0 2 }

/-- The first `next()` of the two-node pattern on `c2Graph`. -/
def c2First : Out (Option Mapping × MatchingState) :=
  match MatchingState.new testRule c2Graph with
  | .ok s0 => MatchingState.nextFuel testRule c2Graph 30 s0
  | _ => .crash

/-- C2: the matcher *accepts* the candidate `{0 → 0, 1 → 1}` even though
graph nodes 0 and 1 are not adjacent in the live graph — `check_edges`
tests `relations` (the helper graph built from pattern ids, where 0–1 are
adjacent) with the mapped graph ids, not the live graph.  This exhibits
the divergence the claim (and spec §4.3) rules out. -/
theorem c2_edge_check_uses_helper_graph :
    (match c2First with | .ok (m, _) => m | _ => Option.none) = some [(0, 0), (1, 1)]
    ∧ c2Graph.graph.has_edge 0 1 = false
    ∧ c2Graph.graph.has_edge 0 2 = true := by
  decide

/-! Claim C4: exhaustion of the matcher is permanent. -/

theorem or_insert_progress_of_some (s : MatchingState) (k v : Nat)
    (h : alookup s.progress k = some v) : s.or_insert_progress k = (s, v) := by
  unfold MatchingState.or_insert_progress
  rw [h]

theorem or_insert_progress_pattern_index (s : MatchingState) (k : Nat) :
    (s.or_insert_progress k).1.pattern_index = s.pattern_index := by
  unfold MatchingState.or_insert_progress
  cases alookup s.progress k <;> rfl

theorem continue_scan_noMatch (graph : RggGraph) (fn : FromNode)
    (s s₁ : MatchingState) (start : Nat)
    (h : MatchingState.continue_scan graph fn s start = .ok (.noMatch, s₁)) :
    s₁ = s ∧ s.pattern_index = 0 := by
  unfold MatchingState.continue_scan at h
  cases hsc : MatchingState.scan_nodes graph fn s.mapping start
      (s.graph_nodes.length - start) with
  | crash => rw [hsc] at h; simp at h
  | fuelOut => rw [hsc] at h; simp at h
  | ok o =>
    rw [hsc] at h
    cases o with
    | some i =>
      simp only at h
      cases hg : s.graph_nodes.get? i with
      | none => rw [hg] at h; simp at h
      | some gid => rw [hg] at h; simp at h
    | none =>
      simp only at h
      by_cases hz : s.pattern_index = 0
      · rw [if_pos hz] at h
        simp at h
        exact ⟨h.symm, hz⟩
      · rw [if_neg hz] at h
        simp at h

theorem continue_search_noMatch_eq (rule : Rule) (graph : RggGraph)
    (s s₁ : MatchingState)
    (h : MatchingState.continue_search rule graph s = .ok (.noMatch, s₁)) : s₁ = s := by
  unfold MatchingState.continue_search at h
  by_cases h1 : rule.from_.nodes.length ≤ usizeOfI32 s.pattern_index
  · rw [if_pos h1] at h
    simp at h
  · rw [if_neg h1] at h
    cases hp : alookup s.progress 0 with
    | none => rw [hp] at h; simp at h
    | some p0 =>
      rw [hp] at h
      simp only at h
      by_cases h2 : graph.graph.order ≤ p0
      · rw [if_pos h2] at h
        simp at h
        exact h.symm
      · rw [if_neg h2] at h
        cases hg : rule.from_.nodes.get? (usizeOfI32 s.pattern_index) with
        | none => rw [hg] at h; simp at h
        | some fn =>
          rw [hg] at h
          obtain ⟨hs, hz⟩ := continue_scan_noMatch graph fn _ s₁ _ h
          rw [hs]
          rw [or_insert_progress_pattern_index] at hz
          have hpi : usizeOfI32 s.pattern_index = 0 := by
            rw [hz]
            decide
          rw [hpi, or_insert_progress_of_some s 0 p0 hp]

/-- C4: once a call to `next()` has returned "no more solutions", the state
is unchanged and every later call (with any fuel) returns "no more
solutions" again, for every rule, graph and matcher state. -/
theorem c4_exhaustion_idempotent (rule : Rule) (graph : RggGraph) :
    ∀ (f : Nat) (s s₁ : MatchingState),
      MatchingState.nextFuel rule graph f s = .ok (Option.none, s₁) →
      ∀ f' : Nat,
        MatchingState.nextFuel rule graph (f' + 1) s₁ = .ok (Option.none, s₁) := by
  intro f
  induction f with
  | zero =>
    intro s s₁ h
    exact absurd h (by simp [MatchingState.nextFuel])
  | succ f ih =>
    intro s s₁ h f'
    simp only [MatchingState.nextFuel] at h
    cases hcs : MatchingState.continue_search rule graph s with
    | crash => rw [hcs] at h; simp at h
    | fuelOut => rw [hcs] at h; simp at h
    | ok ds =>
      obtain ⟨d, s'⟩ := ds
      rw [hcs] at h
      cases d with
      | noMatch =>
        simp at h
        have hs : s' = s := continue_search_noMatch_eq rule graph s s' hcs
        have hs₁ : s₁ = s := by rw [← h, hs]
        rw [hs] at hcs
        rw [hs₁]
        simp only [MatchingState.nextFuel, hcs]
      | mapped =>
        simp only at h
        cases hce : MatchingState.check_edges rule s' with
        | crash => rw [hce] at h; simp at h
        | fuelOut => rw [hce] at h; simp at h
        | ok bv =>
          rw [hce] at h
          cases bv with
          | true =>
            cases hrm : MatchingState.reset_match rule s' with
            | crash => rw [hrm] at h; simp at h
            | fuelOut => rw [hrm] at h; simp at h
            | ok s2 => rw [hrm] at h; simp at h
          | false =>
            cases hrm : MatchingState.reset_match rule s' with
            | crash => rw [hrm] at h; simp at h
            | fuelOut => rw [hrm] at h; simp at h
            | ok s2 =>
              rw [hrm] at h
              simp only at h
              exact ih s2 s₁ h f'
      | cont =>
        simp only at h
        exact ih s' s₁ h f'

/-- Initial matcher state for `testRule` on `twoNodeGraph`. -/
def c4State0 : MatchingState :=
  (MatchingState.new testRule twoNodeGraph).getD junkState

/-- State after the first `next()` (which yields `{0 → 0, 1 → 1}`). -/
def c4State1 : MatchingState :=
  ((MatchingState.nextFuel testRule twoNodeGraph 30 c4State0).getD
    (Option.none, junkState)).2

/-- State after the second `next()` (which reports exhaustion). -/
def c4State2 : MatchingState :=
  ((MatchingState.nextFuel testRule twoNodeGraph 30 c4State1).getD
    (Option.none, junkState)).2

/-- C4 witness: after the matcher for the canonical two-node example has
reported "no more solutions" once, the next call reports it again. -/
theorem c4_exhaustion_idempotent_witness :
    MatchingState.nextFuel testRule twoNodeGraph 8 c4State2 = .ok (Option.none, c4State2) :=
  c4_exhaustion_idempotent testRule twoNodeGraph 30 c4State1 c4State2 (by decide) 7

/-! Claim C10: the matcher probes `graph.values` by snapshot index, so it
can only run to clean exhaustion when the id set is an initial segment. -/

/-- Every snapshot index below `p` has an attribute entry (has been, or can
be, probed without panicking). -/
def covered (g : RggGraph) (p : Nat) : Prop :=
  ∀ i : Nat, i < p → (alookup g.values i).isSome = true

/-- Every index below the graph's order has an attribute entry. -/
def all_covered (g : RggGraph) : Prop :=
  covered g g.graph.order

theorem covered_mono (g : RggGraph) (p q : Nat) (h : covered g p) (hq : q ≤ p) :
    covered g q :=
  fun i hi => h i (Nat.lt_of_lt_of_le hi hq)

theorem usizeOfI32_toNat (i : Int) (h0 : 0 ≤ i) (hlt : i < 2 ^ 64) :
    usizeOfI32 i = i.toNat := by
  unfold usizeOfI32
  rw [Int.emod_eq_of_lt h0 hlt]

theorem usizeOfI32_cast (i : Int) (h0 : 0 ≤ i) (hlt : i < 2 ^ 64) :
    ((usizeOfI32 i : Nat) : Int) = i := by
  rw [usizeOfI32_toNat i h0 hlt]
  exact Int.toNat_of_nonneg h0

/-- The state invariant that threads through the matcher run.  Its parts:
the snapshot is the graph's node list; the cursor stays in `[0, len]`; the
mapping and progress maps have distinct keys; every progress bookmark `p`
witnesses that all indices below `p` were successfully probed; every
mapping key is the id of a pattern node at a level `≤ pattern_index`; and
the level-skip condition (the current level's id already mapped, all lower
ids mapped, current id distinct from the lower ones) can only arise once
every index below the order has been probed. -/
def MInv (r : Rule) (g : RggGraph) (s : MatchingState) : Prop :=
  s.graph_nodes = g.graph.nodes
  ∧ (0 ≤ s.pattern_index ∧ s.pattern_index ≤ (r.from_.nodes.length : Int))
  ∧ (s.mapping.map Prod.fst).Nodup
  ∧ (s.progress.map Prod.fst).Nodup
  ∧ (∀ L p : Nat, alookup s.progress L = some p → covered g p)
  ∧ (∀ k : Int, acontains s.mapping k = true →
      ∃ M : Nat, M < r.from_.nodes.length ∧ (M : Int) ≤ s.pattern_index ∧
        ∃ fm : FromNode, r.from_.nodes.get? M = some fm ∧ fm.id = k)
  ∧ (∀ L : Nat, (L : Int) = s.pattern_index → L < r.from_.nodes.length →
      (∀ M : Nat, M ≤ L → ∀ fm : FromNode, r.from_.nodes.get? M = some fm →
        acontains s.mapping fm.id = true) →
      (∀ M : Nat, M < L → ∀ fm fl : FromNode, r.from_.nodes.get? M = some fm →
        r.from_.nodes.get? L = some fl → fm.id ≠ fl.id) →
      all_covered g)

theorem scan_nodes_skip (graph : RggGraph) (fn : FromNode) (m : Mapping)
    (h : acontains m fn.id = true) :
    ∀ (k i : Nat), MatchingState.scan_nodes graph fn m i k = .ok Option.none := by
  intro k
  induction k with
  | zero => intro i; rfl
  | succ k ih =>
    intro i
    unfold MatchingState.scan_nodes
    rw [if_pos h]
    exact ih (i + 1)

theorem scan_nodes_some (graph : RggGraph) (fn : FromNode) (m : Mapping) :
    ∀ (k i j : Nat), MatchingState.scan_nodes graph fn m i k = .ok (some j) →
      acontains m fn.id = false ∧ i ≤ j ∧
      ∀ x : Nat, i ≤ x → x ≤ j → (alookup graph.values x).isSome = true := by
  intro k
  induction k with
  | zero =>
    intro i j h
    exact absurd h (by simp [MatchingState.scan_nodes])
  | succ k ih =>
    intro i j h
    unfold MatchingState.scan_nodes at h
    by_cases hc : acontains m fn.id = true
    · rw [if_pos hc] at h
      rw [scan_nodes_skip graph fn m hc k (i + 1)] at h
      simp at h
    · rw [if_neg hc] at h
      cases hv : alookup graph.values i with
      | none => rw [hv] at h; simp at h
      | some node =>
        rw [hv] at h
        simp only at h
        by_cases hm : fn.match_node node = true
        · rw [if_pos hm] at h
          simp at h
          refine ⟨Bool.eq_false_iff.2 hc, h ▸ Nat.le_refl i, ?_⟩
          intro x hx1 hx2
          have hxi : x = i := Nat.le_antisymm (h ▸ hx2) hx1
          rw [hxi, hv]
          rfl
        · rw [if_neg hm] at h
          obtain ⟨h1, h2, h3⟩ := ih (i + 1) j h
          refine ⟨h1, Nat.le_trans (Nat.le_succ i) h2, ?_⟩
          intro x hx1 hx2
          rcases Nat.eq_or_lt_of_le hx1 with rfl | hx
          · rw [hv]; rfl
          · exact h3 x hx hx2

theorem scan_nodes_none_probes (graph : RggGraph) (fn : FromNode) (m : Mapping)
    (hc : acontains m fn.id = false) :
    ∀ (k i : Nat), MatchingState.scan_nodes graph fn m i k = .ok Option.none →
      ∀ x : Nat, i ≤ x → x < i + k → (alookup graph.values x).isSome = true := by
  intro k
  induction k with
  | zero =>
    intro i _ x hx1 hx2
    exact absurd (Nat.lt_of_le_of_lt hx1 hx2) (Nat.lt_irrefl i)
  | succ k ih =>
    intro i h x hx1 hx2
    unfold MatchingState.scan_nodes at h
    rw [if_neg (by rw [hc]; exact Bool.false_ne_true)] at h
    cases hv : alookup graph.values i with
    | none => rw [hv] at h; simp at h
    | some node =>
      rw [hv] at h
      simp only at h
      by_cases hm : fn.match_node node = true
      · rw [if_pos hm] at h
        simp at h
      · rw [if_neg hm] at h
        rcases Nat.eq_or_lt_of_le hx1 with rfl | hx
        · rw [hv]; rfl
        · exact ih (i + 1) h x hx (by omega)

theorem or_insert_progress_mapping (s : MatchingState) (k : Nat) :
    (s.or_insert_progress k).1.mapping = s.mapping := by
  unfold MatchingState.or_insert_progress
  cases alookup s.progress k <;> rfl

theorem or_insert_progress_graph_nodes (s : MatchingState) (k : Nat) :
    (s.or_insert_progress k).1.graph_nodes = s.graph_nodes := by
  unfold MatchingState.or_insert_progress
  cases alookup s.progress k <;> rfl

theorem or_insert_lookup (s : MatchingState) (k : Nat) :
    alookup (s.or_insert_progress k).1.progress k = some (s.or_insert_progress k).2 := by
  unfold MatchingState.or_insert_progress
  cases h : alookup s.progress k with
  | none =>
    simp only
    exact alookup_ainsert_self _ _ _
  | some v =>
    simp only
    exact h

theorem or_insert_minv (r : Rule) (g : RggGraph) (s : MatchingState) (k : Nat)
    (hInv : MInv r g s) : MInv r g (s.or_insert_progress k).1 := by
  obtain ⟨c0, c1, c2, c2b, c3, c4, c5⟩ := hInv
  unfold MatchingState.or_insert_progress
  cases h : alookup s.progress k with
  | some v => exact ⟨c0, c1, c2, c2b, c3, c4, c5⟩
  | none =>
    refine ⟨c0, c1, c2, nodup_keys_ainsert _ _ _ c2b, ?_, c4, c5⟩
    intro L p hL
    by_cases hLk : L = k
    · rw [hLk, alookup_ainsert_self] at hL
      have : p = 0 := by injection hL with h'; exact h'.symm
      rw [this]
      intro i hi
      exact absurd hi (Nat.not_lt_zero i)
    · rw [alookup_ainsert_ne _ _ _ _ hLk] at hL
      exact c3 L p hL

theorem continue_scan_minv (r : Rule) (g : RggGraph) (fn : FromNode) (s : MatchingState)
    (start : Nat) (d : MatchingDecision) (s' : MatchingState)
    (hpi_lt : usizeOfI32 s.pattern_index < r.from_.nodes.length)
    (hfn : r.from_.nodes.get? (usizeOfI32 s.pattern_index) = some fn)
    (hpi_int : ((usizeOfI32 s.pattern_index : Nat) : Int) = s.pattern_index)
    (hstart : alookup s.progress (usizeOfI32 s.pattern_index) = some start)
    (hInv : MInv r g s)
    (h : MatchingState.continue_scan g fn s start = .ok (d, s')) :
    MInv r g s' ∧ (d = .noMatch → all_covered g) ∧ d ≠ .mapped := by
  obtain ⟨c0, c1, c2, c2b, c3, c4, c5⟩ := hInv
  have hcovst : covered g start := c3 _ _ hstart
  have horder : s.graph_nodes.length = g.graph.order := by rw [c0]; rfl
  unfold MatchingState.continue_scan at h
  cases hsc : MatchingState.scan_nodes g fn s.mapping start (s.graph_nodes.length - start) with
  | crash => rw [hsc] at h; simp at h
  | fuelOut => rw [hsc] at h; simp at h
  | ok o =>
    rw [hsc] at h
    cases o with
    | some i =>
      simp only at h
      cases hgid : s.graph_nodes.get? i with
      | none => rw [hgid] at h; simp at h
      | some gid =>
        rw [hgid] at h
        injection h with hpair
        injection hpair with hd hs
        subst hd
        subst hs
        obtain ⟨hnc, hile, hprobe⟩ :=
          scan_nodes_some g fn s.mapping (s.graph_nodes.length - start) start i hsc
        have hlt : s.pattern_index < (r.from_.nodes.length : Int) := by
          rw [← hpi_int]
          exact_mod_cast hpi_lt
        refine ⟨⟨c0, ⟨by show (0 : Int) ≤ s.pattern_index + 1; omega,
          by show s.pattern_index + 1 ≤ (r.from_.nodes.length : Int); omega⟩,
          nodup_keys_ainsert _ _ _ c2,
          nodup_keys_ainsert _ _ _ c2b, ?_, ?_, ?_⟩,
          fun hcd => MatchingDecision.noConfusion hcd,
          fun hcd => MatchingDecision.noConfusion hcd⟩
        · intro L p hL
          by_cases hLk : L = usizeOfI32 s.pattern_index
          · rw [hLk, alookup_ainsert_self] at hL
            injection hL with hp
            rw [← hp]
            intro y hy
            by_cases hys : y < start
            · exact hcovst y hys
            · exact hprobe y (Nat.le_of_not_lt hys) (by omega)
          · rw [alookup_ainsert_ne _ _ _ _ hLk] at hL
            exact c3 L p hL
        · intro k hk
          rcases (acontains_ainsert _ _ _ _).1 hk with hkid | hold
          · refine ⟨usizeOfI32 s.pattern_index, hpi_lt, ?_, fn, hfn, hkid.symm⟩
            show ((usizeOfI32 s.pattern_index : Nat) : Int) ≤ s.pattern_index + 1
            omega
          · obtain ⟨M, hM1, hM2, fm, hM3, hM4⟩ := c4 k hold
            refine ⟨M, hM1, ?_, fm, hM3, hM4⟩
            show (M : Int) ≤ s.pattern_index + 1
            omega
        · intro L hLeq hLlt hyp1 hyp2
          have hLeq2 : (L : Int) = s.pattern_index + 1 := hLeq
          obtain ⟨fl, hfl⟩ : ∃ fl, r.from_.nodes.get? L = some fl :=
            ⟨_, List.get?_eq_get hLlt⟩
          have hcontains := hyp1 L (Nat.le_refl L) fl hfl
          rcases (acontains_ainsert _ _ _ _).1 hcontains with heq | hold
          · have hpiL : usizeOfI32 s.pattern_index < L := by omega
            exact absurd heq.symm (hyp2 _ hpiL fn fl hfn hfl)
          · obtain ⟨M, hM1, hM2, fm, hM3, hM4⟩ := c4 fl.id hold
            have hML : M < L := by omega
            exact absurd hM4 (hyp2 M hML fm fl hM3 hfl)
    | none =>
      simp only at h
      by_cases hz : s.pattern_index = 0
      · rw [if_pos hz] at h
        injection h with hpair
        injection hpair with hd hs
        subst hd
        subst hs
        refine ⟨⟨c0, c1, c2, c2b, c3, c4, c5⟩, ?_,
          fun hcd => MatchingDecision.noConfusion hcd⟩
        intro _
        by_cases hc : acontains s.mapping fn.id = true
        · have hpi0 : usizeOfI32 s.pattern_index = 0 := by rw [hz]; decide
          apply c5 (usizeOfI32 s.pattern_index) hpi_int hpi_lt
          · intro M hM fm hfm
            have hM0 : M = 0 := by omega
            have hfmfn : fm = fn := by
              rw [hM0, ← hpi0, hfn] at hfm
              injection hfm with h'
              exact h'.symm
            rw [hfmfn]
            exact hc
          · intro M hM fm fl _ _
            rw [hpi0] at hM
            exact absurd hM (Nat.not_lt_zero M)
        · have hnc : acontains s.mapping fn.id = false := by
            revert hc
            cases acontains s.mapping fn.id <;> simp
          have hpr := scan_nodes_none_probes g fn s.mapping hnc _ start hsc
          intro y hy
          by_cases hys : y < start
          · exact hcovst y hys
          · exact hpr y (Nat.le_of_not_lt hys) (by omega)
      · rw [if_neg hz] at h
        injection h with hpair
        injection hpair with hd hs
        subst hd
        subst hs
        have hlt : s.pattern_index < (r.from_.nodes.length : Int) := by
          rw [← hpi_int]
          exact_mod_cast hpi_lt
        refine ⟨⟨c0, ⟨by show (0 : Int) ≤ s.pattern_index - 1; omega,
          by show s.pattern_index - 1 ≤ (r.from_.nodes.length : Int); omega⟩,
          nodup_keys_aremove _ _ c2,
          nodup_keys_aremove _ _ c2b, ?_, ?_, ?_⟩,
          fun hcd => MatchingDecision.noConfusion hcd,
          fun hcd => MatchingDecision.noConfusion hcd⟩
        · intro L p hL
          by_cases hLk : L = usizeOfI32 s.pattern_index
          · rw [hLk, alookup_aremove_self _ _ c2b] at hL
            exact absurd hL (by simp)
          · rw [alookup_aremove_ne _ _ _ hLk] at hL
            exact c3 L p hL
        · intro k hk
          have hne : k ≠ fn.id := by
            intro hceq
            rw [hceq, acontains_aremove_self _ _ c2] at hk
            exact Bool.false_ne_true hk
          have hold := acontains_aremove _ _ _ hk
          obtain ⟨M, hM1, hM2, fm, hM3, hM4⟩ := c4 k hold
          refine ⟨M, hM1, ?_, fm, hM3, hM4⟩
          show (M : Int) ≤ s.pattern_index - 1
          by_cases hMeq : (M : Int) = s.pattern_index
          · exfalso
            have hMpi : M = usizeOfI32 s.pattern_index := by omega
            rw [hMpi, hfn] at hM3
            injection hM3 with h'
            rw [← h'] at hM4
            exact hne hM4.symm
          · omega
        · intro L' hL'eq hL'lt hyp1 hyp2
          have hL'eq2 : (L' : Int) = s.pattern_index - 1 := hL'eq
          by_cases hc : acontains s.mapping fn.id = true
          · apply c5 (usizeOfI32 s.pattern_index) hpi_int hpi_lt
            · intro M hM fm hfm
              by_cases hMpi : M = usizeOfI32 s.pattern_index
              · have hfmfn : fm = fn := by
                  rw [hMpi, hfn] at hfm
                  injection hfm with h'
                  exact h'.symm
                rw [hfmfn]
                exact hc
              · have hML' : M ≤ L' := by omega
                exact acontains_aremove _ _ _ (hyp1 M hML' fm hfm)
            · intro M hM fm fl hfm hfl
              have hfl' : fl = fn := by
                rw [hfn] at hfl
                injection hfl with h'
                exact h'.symm
              have hML' : M ≤ L' := by omega
              have hcm := hyp1 M hML' fm hfm
              intro hceq
              rw [hfl'] at hceq
              rw [hceq, acontains_aremove_self _ _ c2] at hcm
              exact Bool.false_ne_true hcm
          · have hnc : acontains s.mapping fn.id = false := by
              revert hc
              cases acontains s.mapping fn.id <;> simp
            have hpr := scan_nodes_none_probes g fn s.mapping hnc _ start hsc
            intro y hy
            by_cases hys : y < start
            · exact hcovst y hys
            · exact hpr y (Nat.le_of_not_lt hys) (by omega)

theorem continue_search_minv (r : Rule) (g : RggGraph) (s : MatchingState)
    (d : MatchingDecision) (s' : MatchingState)
    (hlen : r.from_.nodes.length < 2 ^ 64)
    (hInv : MInv r g s)
    (h : MatchingState.continue_search r g s = .ok (d, s')) :
    MInv r g s' ∧ (d = .noMatch → all_covered g) ∧
      (d = .mapped → s' = s ∧ s.pattern_index = (r.from_.nodes.length : Int)) := by
  have c1 := hInv.2.1
  have hlen' : ((2 ^ 64 : Nat) : Int) = 2 ^ 64 := by norm_num
  have hplt : s.pattern_index < 2 ^ 64 := by
    have : (r.from_.nodes.length : Int) < ((2 ^ 64 : Nat) : Int) := by
      exact_mod_cast hlen
    omega
  have hcast := usizeOfI32_cast s.pattern_index c1.1 hplt
  unfold MatchingState.continue_search at h
  by_cases h1 : r.from_.nodes.length ≤ usizeOfI32 s.pattern_index
  · rw [if_pos h1] at h
    injection h with hpair
    injection hpair with hd hs
    subst hd
    subst hs
    refine ⟨hInv, fun hcd => MatchingDecision.noConfusion hcd, fun _ => ⟨rfl, ?_⟩⟩
    have : (r.from_.nodes.length : Int) ≤ ((usizeOfI32 s.pattern_index : Nat) : Int) := by
      exact_mod_cast h1
    omega
  · rw [if_neg h1] at h
    cases hp : alookup s.progress 0 with
    | none => rw [hp] at h; simp at h
    | some p0 =>
      rw [hp] at h
      simp only at h
      by_cases h2 : g.graph.order ≤ p0
      · rw [if_pos h2] at h
        injection h with hpair
        injection hpair with hd hs
        subst hd
        subst hs
        exact ⟨hInv, fun _ => covered_mono g p0 g.graph.order (hInv.2.2.2.2.1 0 p0 hp) h2,
          fun hcd => MatchingDecision.noConfusion hcd⟩
      · rw [if_neg h2] at h
        cases hg : r.from_.nodes.get? (usizeOfI32 s.pattern_index) with
        | none => rw [hg] at h; simp at h
        | some fn =>
          rw [hg] at h
          simp only at h
          have hpi_lt : usizeOfI32 s.pattern_index < r.from_.nodes.length :=
            Nat.lt_of_not_le h1
          have e1 := or_insert_progress_pattern_index s (usizeOfI32 s.pattern_index)
          have hpi_lt' : usizeOfI32
              (s.or_insert_progress (usizeOfI32 s.pattern_index)).1.pattern_index <
              r.from_.nodes.length := by rw [e1]; exact hpi_lt
          have hfn' : r.from_.nodes.get? (usizeOfI32
              (s.or_insert_progress (usizeOfI32 s.pattern_index)).1.pattern_index) =
              some fn := by rw [e1]; exact hg
          have hpi_int' : ((usizeOfI32
              (s.or_insert_progress (usizeOfI32 s.pattern_index)).1.pattern_index : Nat) :
              Int) = (s.or_insert_progress (usizeOfI32 s.pattern_index)).1.pattern_index := by
            rw [e1]
            exact hcast
          have hstart' : alookup
              (s.or_insert_progress (usizeOfI32 s.pattern_index)).1.progress
              (usizeOfI32
                (s.or_insert_progress (usizeOfI32 s.pattern_index)).1.pattern_index) =
              some (s.or_insert_progress (usizeOfI32 s.pattern_index)).2 := by
            rw [e1]
            exact or_insert_lookup s (usizeOfI32 s.pattern_index)
          have hInv' := or_insert_minv r g s (usizeOfI32 s.pattern_index) hInv
          obtain ⟨hI, hnm, hnmap⟩ := continue_scan_minv r g fn
            (s.or_insert_progress (usizeOfI32 s.pattern_index)).1
            (s.or_insert_progress (usizeOfI32 s.pattern_index)).2 d s'
            hpi_lt' hfn' hpi_int' hstart' hInv' h
          exact ⟨hI, hnm, fun hcd => absurd hcd hnmap⟩

theorem reset_match_minv (r : Rule) (g : RggGraph) (s s₂ : MatchingState)
    (hlen : r.from_.nodes.length < 2 ^ 64)
    (hpieq : s.pattern_index = (r.from_.nodes.length : Int))
    (hInv : MInv r g s)
    (h : MatchingState.reset_match r s = .ok s₂) : MInv r g s₂ := by
  obtain ⟨c0, c1, c2, c2b, c3, c4, c5⟩ := hInv
  unfold MatchingState.reset_match at h
  simp only at h
  cases hg : r.from_.nodes.get? (usizeOfI32 (s.pattern_index - 1)) with
  | none => rw [hg] at h; simp at h
  | some fn =>
    rw [hg] at h
    injection h with hs
    subst hs
    have hlt : usizeOfI32 (s.pattern_index - 1) < r.from_.nodes.length := by
      by_contra hge
      rw [List.get?_eq_none.2 (Nat.le_of_not_lt hge)] at hg
      exact Option.noConfusion hg
    have hlen1 : 1 ≤ r.from_.nodes.length := by
      by_contra hc
      have h0 : r.from_.nodes.length = 0 := by omega
      rw [h0] at hlt
      exact Nat.not_lt_zero _ hlt
    have hpos : (0 : Int) ≤ s.pattern_index - 1 := by
      have : (1 : Int) ≤ (r.from_.nodes.length : Int) := by exact_mod_cast hlen1
      omega
    have hplt : s.pattern_index - 1 < 2 ^ 64 := by
      have : (r.from_.nodes.length : Int) < ((2 ^ 64 : Nat) : Int) := by
        exact_mod_cast hlen
      have h64 : ((2 ^ 64 : Nat) : Int) = 2 ^ 64 := by norm_num
      omega
    have hcast := usizeOfI32_cast (s.pattern_index - 1) hpos hplt
    refine ⟨c0, ⟨by show (0 : Int) ≤ s.pattern_index - 1; omega,
      by show s.pattern_index - 1 ≤ (r.from_.nodes.length : Int); omega⟩,
      nodup_keys_aremove _ _ c2, c2b, c3, ?_, ?_⟩
    · intro k hk
      have hold := acontains_aremove _ _ _ hk
      obtain ⟨M, hM1, hM2, fm, hM3, hM4⟩ := c4 k hold
      refine ⟨M, hM1, ?_, fm, hM3, hM4⟩
      show (M : Int) ≤ s.pattern_index - 1
      have : (M : Int) < (r.from_.nodes.length : Int) := by exact_mod_cast hM1
      omega
    · intro L' hL'eq hL'lt hyp1 hyp2
      have hL'eq2 : (L' : Int) = s.pattern_index - 1 := hL'eq
      exfalso
      have hL'pi : L' = usizeOfI32 (s.pattern_index - 1) := by omega
      have hfl := hyp1 L' (Nat.le_refl L') fn (by rw [hL'pi]; exact hg)
      rw [acontains_aremove_self _ _ c2] at hfl
      exact Bool.false_ne_true hfl

theorem nextFuel_minv (r : Rule) (g : RggGraph)
    (hlen : r.from_.nodes.length < 2 ^ 64) :
    ∀ (f : Nat) (s : MatchingState) (o : Option Mapping) (s' : MatchingState),
      MInv r g s →
      MatchingState.nextFuel r g f s = .ok (o, s') →
      MInv r g s' ∧ (o = Option.none → all_covered g) := by
  intro f
  induction f with
  | zero =>
    intro s o s' _ h
    exact absurd h (by simp [MatchingState.nextFuel])
  | succ f ih =>
    intro s o s' hInv h
    simp only [MatchingState.nextFuel] at h
    cases hcs : MatchingState.continue_search r g s with
    | crash => rw [hcs] at h; simp at h
    | fuelOut => rw [hcs] at h; simp at h
    | ok ds =>
      obtain ⟨d, s₁⟩ := ds
      rw [hcs] at h
      obtain ⟨hI1, hnm, hmap⟩ := continue_search_minv r g s d s₁ hlen hInv hcs
      cases d with
      | noMatch =>
        simp at h
        obtain ⟨ho, hs⟩ := h
        rw [← hs]
        exact ⟨hI1, fun _ => hnm rfl⟩
      | mapped =>
        simp only at h
        obtain ⟨hseq, hpeq⟩ := hmap rfl
        cases hce : MatchingState.check_edges r s₁ with
        | crash => rw [hce] at h; simp at h
        | fuelOut => rw [hce] at h; simp at h
        | ok bv =>
          rw [hce] at h
          cases bv with
          | true =>
            cases hrm : MatchingState.reset_match r s₁ with
            | crash => rw [hrm] at h; simp at h
            | fuelOut => rw [hrm] at h; simp at h
            | ok s2 =>
              rw [hrm] at h
              simp at h
              obtain ⟨ho, hs⟩ := h
              have hI2 := reset_match_minv r g s₁ s2 hlen
                (by rw [hseq]; exact hpeq) hI1 hrm
              rw [← hs]
              refine ⟨hI2, fun hc => ?_⟩
              rw [hc] at ho
              exact Option.noConfusion ho
          | false =>
            cases hrm : MatchingState.reset_match r s₁ with
            | crash => rw [hrm] at h; simp at h
            | fuelOut => rw [hrm] at h; simp at h
            | ok s2 =>
              rw [hrm] at h
              simp only at h
              have hI2 := reset_match_minv r g s₁ s2 hlen
                (by rw [hseq]; exact hpeq) hI1 hrm
              exact ih s2 o s' hI2 h
      | cont =>
        simp only at h
        exact ih s₁ o s' hI1 h

theorem collect_minv (r : Rule) (g : RggGraph)
    (hlen : r.from_.nodes.length < 2 ^ 64) :
    ∀ (f : Nat) (s : MatchingState) (ms : List Mapping),
      MInv r g s →
      MatchingState.collectFuel r g f s = .ok ms →
      all_covered g := by
  intro f
  induction f with
  | zero =>
    intro s ms _ h
    exact absurd h (by simp [MatchingState.collectFuel])
  | succ f ih =>
    intro s ms hInv h
    simp only [MatchingState.collectFuel] at h
    cases hn : MatchingState.nextFuel r g (f + 1) s with
    | crash => rw [hn] at h; simp at h
    | fuelOut => rw [hn] at h; simp at h
    | ok os =>
      obtain ⟨o, s₁⟩ := os
      rw [hn] at h
      obtain ⟨hI1, hcov⟩ := nextFuel_minv r g hlen (f + 1) s o s₁ hInv hn
      cases o with
      | none => exact hcov rfl
      | some m =>
        simp only at h
        cases hc : MatchingState.collectFuel r g f s₁ with
        | crash => rw [hc] at h; simp at h
        | fuelOut => rw [hc] at h; simp at h
        | ok ms' => exact ih s₁ ms' hI1 hc

theorem minv_init (r : Rule) (g : RggGraph) (s0 : MatchingState)
    (h : MatchingState.new r g = .ok s0) : MInv r g s0 := by
  unfold MatchingState.new at h
  cases ha : r.from_.as_graph with
  | crash => rw [ha] at h; simp at h
  | fuelOut => rw [ha] at h; simp at h
  | ok rel =>
    rw [ha] at h
    injection h with hs
    subst hs
    refine ⟨rfl, ⟨le_refl 0, Int.ofNat_nonneg _⟩, List.nodup_nil, ?_, ?_, ?_, ?_⟩
    · show (([(0, 0)] : List (Nat × Nat)).map Prod.fst).Nodup
      simp
    · intro L p hL
      show covered g p
      unfold alookup at hL
      by_cases hL0 : (0 : Nat) = L
      · rw [if_pos hL0] at hL
        injection hL with hp
        rw [← hp]
        intro i hi
        exact absurd hi (Nat.not_lt_zero i)
      · rw [if_neg hL0] at hL
        exact absurd hL (by unfold alookup; simp)
    · intro k hk
      exact absurd hk (by unfold acontains alookup; simp)
    · intro L hLeq hLlt hyp1 _
      obtain ⟨fl, hfl⟩ : ∃ fl, r.from_.nodes.get? L = some fl :=
        ⟨_, List.get?_eq_get hLlt⟩
      have := hyp1 L (Nat.le_refl L) fl hfl
      exact absurd this (by unfold acontains alookup; simp)

/-- Three nodes inserted, node 1 removed: node-id set `{0, 2}`, order 2 —
not the contiguous range `0..order-1`. -/
def gapGraph : RggGraph :=
  let g := RggGraph.new
  let g := (g.insert_node.getD (g, 0)).1
  let g := (g.insert_node.getD (g, 0)).1
  let g := (g.insert_node.getD (g, 0)).1
  g.remove_node 1

/-- Initial matcher state of the one-node pattern on `gapGraph`. -/
def gapS0 : MatchingState :=
  (MatchingState.new simpleRule gapGraph).getD junkState

/-- The first `next()` on the gapped graph. -/
def gapFirst : Out (Option Mapping × MatchingState) :=
  MatchingState.nextFuel simpleRule gapGraph 30 gapS0

/-- The call after the first mapping. -/
def gapSecond : Out (Option Mapping × MatchingState) :=
  MatchingState.nextFuel simpleRule gapGraph 30
    ((gapFirst.getD (Option.none, junkState)).2)

/-- C10 counterexample: on the gapped graph (ids `{0, 2}`, order 2 — not
the contiguous range) the first call to `next()` *returns a mapping*
(`{0 → 0}`) rather than reaching the missing-key lookup, so the claim as
stated — every `next()` call on such a graph panics instead of returning a
mapping or "no more solutions" — is false. -/
theorem c10_counterexample :
    gapGraph.graph.order = 2 ∧ gapGraph.graph.nodes = [0, 2]
    ∧ (match gapFirst with | .ok (m, _) => m | _ => Option.none) = some [(0, 0)]
    ∧ gapFirst.isCrash = false := by
  decide

/-- Initial matcher state of the two-node pattern on the contiguous
two-node graph, used by the C10 witness. -/
def c10InitState : MatchingState :=
  (MatchingState.new testRule twoNodeGraph).getD junkState

/-- C10 amended: `next()` may still yield mappings bound before a missing
index is probed, but the matcher can never report a clean "no more
solutions" on a graph whose id set is not the contiguous range: whenever
iterating the matcher to exhaustion terminates cleanly (for a graph whose
attribute keys all belong to the node set, i.e. the `RggGraph` lock-step
invariant), every index below `order()` is a node id — so the id set is
exactly `0..order-1`.  On any other graph the run can only keep yielding
or hit the missing-key panic, as the concrete gapped graph does on the
call after its first mapping. -/
theorem c10_amended :
    (∀ (r : Rule) (g : RggGraph) (s0 : MatchingState) (fuel : Nat) (ms : List Mapping),
      r.from_.nodes.length < 2 ^ 64 →
      (∀ i ∈ g.values.map Prod.fst, i ∈ g.graph.nodes) →
      MatchingState.new r g = .ok s0 →
      MatchingState.collectFuel r g fuel s0 = .ok ms →
      ∀ i : Nat, i < g.graph.order → i ∈ g.graph.nodes)
    ∧ gapSecond = Out.crash := by
  constructor
  · intro r g s0 fuel ms hlen hlock hnew hcol i hi
    have hcov := collect_minv r g hlen fuel s0 ms (minv_init r g s0 hnew) hcol
    exact hlock i (mem_keys_of_alookup _ _ (hcov i hi))
  · decide

/-- C10 witness: the amended theorem applied to the contiguous two-node
graph, whose matcher does exhaust cleanly. -/
theorem c10_amended_witness :
    ∀ i : Nat, i < twoNodeGraph.graph.order → i ∈ twoNodeGraph.graph.nodes :=
  c10_amended.1 testRule twoNodeGraph c10InitState 30 [[(0, 0), (1, 1)]]
    (by decide) (by decide) (by decide) (by decide)

end Plant
